import Mathlib

/-!
# Verification of the spacectl cache subsystem

A shallow embedding, in Lean 4, of the cache mode-provider framework
(`internal/cache/mode`) and the mount orchestrator (`internal/cache/mount.go`)
of the spacectl repository, together with proofs of the behavioural claims
about them.

Modelling conventions:
* Go strings are Lean `String`s (a structure over `List Char`); the byte/char
  distinction is immaterial for the ASCII separators and markers involved.
* The process environment consumed through the `Executor` interfaces is an
  explicit oracle record (`ModeExec` for the mode package's executor,
  `CacheExec` for the mount orchestrator's executor).  Functions that issue
  executor calls additionally return the list of calls they made, so that
  claims about which operations are (not) performed are statable.
* Go's `(T, error)` returns become `Except String T`; `errors.Is(err, X)`
  distinctions are modelled by dedicated constructors of the oracle results.
* The concurrent fan-out of `Modes.Detect` / `Modes.Plan` (errgroup) is
  modelled sequentially in provider order: the observable contract (fail-fast,
  first error wins, no partial results) is order-insensitive, and Go map
  iteration order is modelled as provider-list order.
-/

/-! ## Go string primitives -/

/-- Go `unicode.IsSpace`: the Unicode white-space code points recognised by
`strings.TrimSpace`. -/
def goIsSpace (c : Char) : Bool :=
  (0x9 ≤ c.val && c.val ≤ 0xD) || c.val == 0x20 || c.val == 0x85 || c.val == 0xA0 ||
  c.val == 0x1680 || (0x2000 ≤ c.val && c.val ≤ 0x200A) ||
  c.val == 0x2028 || c.val == 0x2029 || c.val == 0x202F || c.val == 0x205F || c.val == 0x3000

/-- Go `strings.Split(s, "\n")` on the underlying character list.  Always
returns at least one (possibly empty) piece. -/
def splitNlL : List Char → List (List Char)
  | [] => [[]]
  | c :: t =>
    let r := splitNlL t
    if c = '\n' then [] :: r
    else
      match r with
      | h :: rs => (c :: h) :: rs
      | [] => [[c]]

/-- Go `strings.Join(pieces, "\n")` on character lists. -/
def joinNlL : List (List Char) → List Char
  | [] => []
  | [p] => p
  | p :: ps => p ++ '\n' :: joinNlL ps

/-- Drop trailing white space (the right half of Go `strings.TrimSpace`). -/
def dropRightWs (l : List Char) : List Char :=
  (l.reverse.dropWhile goIsSpace).reverse

/-- Go `strings.TrimSpace` on character lists. -/
def trimL (l : List Char) : List Char :=
  dropRightWs (l.dropWhile goIsSpace)

/-- Go `strings.TrimSpace`. -/
def goTrimSpace (s : String) : String :=
  ⟨trimL s.data⟩

/-- Go `strings.Split(s, "\n")`. -/
def goSplitNl (s : String) : List String :=
  (splitNlL s.data).map String.mk

/-- Go `strings.Join(pieces, "\n")`. -/
def goJoinNl (ls : List String) : String :=
  ⟨joinNlL (ls.map String.data)⟩

/-- Go `strings.HasPrefix p of s` (argument order: marker first, string second). -/
def goHasPre (p s : String) : Bool :=
  p.data.isPrefixOf s.data

/-- Go `strings.HasSuffix`. -/
def goHasSuf (p s : String) : Bool :=
  p.data.isSuffixOf s.data

/-- Go `strings.ToLower`, modelled for the ASCII range (the only case-folding
any embedded code path relies on: the markers compared against are ASCII). -/
def goToLower (s : String) : String :=
  ⟨s.data.map (fun c => if 'A' ≤ c && c ≤ 'Z' then Char.ofNat (c.toNat + 32) else c)⟩

/-- One `bufio.ScanLines` token: a line with a single trailing `'\r'` removed. -/
def dropTrailingCr (l : List Char) : List Char :=
  if l.getLast? = some '\r' then l.dropLast else l

/-- Go `bufio.Scanner` with the default `ScanLines` split: the newline-separated
lines of the input, without a final empty token when the input ends in a
newline (or is empty), each with a trailing carriage return stripped. -/
def goScanLines (s : String) : List String :=
  if s.data = [] then []
  else
    let raw := splitNlL s.data
    let raw := if raw.getLast? = some [] then raw.dropLast else raw
    raw.map (fun l => String.mk (dropTrailingCr l))

/-- Go `fmt` `%q` for the plain paths that occur here (quoting only; escape
sequences for exotic characters are not modelled, no claim depends on them). -/
def goQuote (s : String) : String :=
  "\"" ++ s ++ "\""

/-- Models Go `filepath.Join` for two components: joins the non-empty
components with `/`.  `filepath.Clean` normalisation (duplicate separators,
`.`/`..` elements) is not modelled; no claim depends on it. -/
def filepathJoin (a b : String) : String :=
  if a = "" then b else if b = "" then a else a ++ "/" ++ b

/-- Models Go `filepath.Dir` for the already-joined paths that occur here:
everything before the final `/`, or `.` when there is no separator. -/
def filepathDir (p : String) : String :=
  let rev := p.data.reverse
  let cut := rev.dropWhile (fun c => c ≠ '/')
  match cut with
  | [] => "."
  | _ :: t => ⟨t.reverse⟩

/-! ## Semantic versions

`PnpmProvider.Plan` calls `golang.org/x/mod/semver.Compare`.  That library is a
dependency of the repository and its source is not under `src/`, so it is
modelled here from its documented behaviour. -/

/-- A parsed semantic version: `major.minor.patch` and the dot-separated
pre-release identifiers (empty list = release version). -/
structure SemVer where
  major : Nat
  minor : Nat
  patch : Nat
  pre : List (List Char)
deriving DecidableEq, Repr

/-- Parse a decimal number with no leading zeros, returning it and the rest. -/
def semverNum (l : List Char) : Option (Nat × List Char) :=
  let digits := l.takeWhile Char.isDigit
  let rest := l.dropWhile Char.isDigit
  if digits = [] then none
  else if digits.length > 1 && digits.headI = '0' then none
  else some (digits.foldl (fun n c => n * 10 + (c.toNat - '0'.toNat)) 0, rest)

/-- A legal pre-release identifier: nonempty, alphanumeric or hyphen characters,
and no leading zero when purely numeric. -/
def semverIdentOk (l : List Char) : Bool :=
  l ≠ [] &&
  l.all (fun c => c.isAlphanum || c = '-') &&
  (!(l.all Char.isDigit) || l.length = 1 || l.headI ≠ '0')

/-- A legal build identifier: nonempty, alphanumeric or hyphen characters. -/
def semverBuildIdentOk (l : List Char) : Bool :=
  l ≠ [] && l.all (fun c => c.isAlphanum || c = '-')

/-- Split a pre-release / build suffix on dots. -/
def semverSplitDots : List Char → List (List Char)
  | [] => [[]]
  | c :: t =>
    let r := semverSplitDots t
    if c = '.' then [] :: r
    else
      match r with
      | h :: rs => (c :: h) :: rs
      | [] => [[c]]

/-- Modelled from the spec: parsing as done by `golang.org/x/mod/semver`
(dependency, not under `src/`).  A version must start with `v`; minor and
patch default to 0 when omitted; a pre-release (after `-`) and build (after
`+`) suffix may follow the numeric core; malformed versions parse to `none`. -/
def semverParse (s : String) : Option SemVer :=
  match s.data with
  | 'v' :: rest =>
    match semverNum rest with
    | none => none
    | some (maj, r1) =>
      let tail1 :=
        match r1 with
        | '.' :: r2 =>
          match semverNum r2 with
          | none => none
          | some (min, r3) =>
            match r3 with
            | '.' :: r4 =>
              match semverNum r4 with
              | none => none
              | some (pat, r5) => some (min, pat, r5)
            | _ => some (min, 0, r3)
        | _ => some (0, 0, r1)
      match tail1 with
      | none => none
      | some (min, pat, r5) =>
        let split :=
          match r5 with
          | '-' :: r6 =>
            let preChars := r6.takeWhile (fun c => c ≠ '+')
            let buildRest := r6.dropWhile (fun c => c ≠ '+')
            some (semverSplitDots preChars, buildRest)
          | _ => some ([], r5)
        match split with
        | none => none
        | some (pre, buildRest) =>
          let preOk := pre.all semverIdentOk
          let buildOk :=
            match buildRest with
            | [] => true
            | '+' :: r7 => (semverSplitDots r7).all semverBuildIdentOk
            | _ => false
          if preOk && buildOk then some ⟨maj, min, pat, pre⟩ else none
  | _ => none

/-- Compare two pre-release identifiers: numeric identifiers compare
numerically and sort below alphanumeric ones, which compare lexically. -/
def semverCmpIdent (a b : List Char) : Ordering :=
  match a.all Char.isDigit, b.all Char.isDigit with
  | true, true =>
    compare (a.foldl (fun n c => n * 10 + (c.toNat - '0'.toNat)) 0)
            (b.foldl (fun n c => n * 10 + (c.toNat - '0'.toNat)) 0)
  | true, false => .lt
  | false, true => .gt
  | false, false => compare (String.mk a) (String.mk b)

/-- Compare pre-release identifier lists; a shorter list sorts first when equal
so far. -/
def semverCmpIdents : List (List Char) → List (List Char) → Ordering
  | [], [] => .eq
  | [], _ :: _ => .lt
  | _ :: _, [] => .gt
  | a :: as, b :: bs =>
    match semverCmpIdent a b with
    | .eq => semverCmpIdents as bs
    | o => o

/-- Compare two parsed versions: numeric core first, then pre-release, where a
release sorts above any pre-release. -/
def semverCmpParsed (a b : SemVer) : Ordering :=
  match compare a.major b.major with
  | .eq =>
    match compare a.minor b.minor with
    | .eq =>
      match compare a.patch b.patch with
      | .eq =>
        match a.pre, b.pre with
        | [], [] => .eq
        | [], _ :: _ => .gt
        | _ :: _, [] => .lt
        | x, y => semverCmpIdents x y
      | o => o
    | o => o
  | o => o

/-- Modelled from the spec: `golang.org/x/mod/semver.Compare` (dependency, not
under `src/`): -1, 0 or +1; an invalid version sorts below every valid one. -/
def semverCompare (v w : String) : Int :=
  match semverParse v, semverParse w with
  | none, none => 0
  | none, some _ => -1
  | some _, none => 1
  | some a, some b =>
    match semverCmpParsed a b with
    | .lt => -1
    | .eq => 0
    | .gt => 1

/-! ## The mode package: executor, providers, registry

Embeds `internal/cache/mode` (registry, `mode.go`) and the provider set of the
current providers file (`src/unnamed/part_001`). -/

/-- Outcome of `mode.Executor.LookPath` (Go `exec.LookPath`): found with a
path, the distinguished `exec.ErrNotFound`, or another error. -/
inductive LookRes where
  | found (path : String)
  | notFound
  | err (msg : String)
deriving DecidableEq, Repr

/-- Outcome of an executor `Stat`: success, the distinguished
`os.ErrNotExist`, or another error.  The `os.FileInfo` payload is never
inspected by the embedded code, so it is not modelled. -/
inductive StatRes where
  | ok
  | notFound
  | err (msg : String)
deriving DecidableEq, Repr

/-- The `mode.Executor` capability as an environment oracle.  Commands passed
to `Output` are identified by their argv. -/
structure ModeExec where
  lookPath : String → LookRes
  output : List String → Except String String
  stat : String → StatRes
  readDir : String → Except String (List String)

/-- `mode.PlanResult`.  `AddEnvs` (a Go map with distinct keys) is modelled as
an association list. -/
structure PlanResult where
  addEnvs : List (String × String) := []
  mountPaths : List String := []
  removePaths : List String := []
deriving DecidableEq, Repr

/-- The `mode.ModeProvider` interface: a name, `Detect`, and `Plan`.  `Plan`
receives the executor and the enabled-mode names of the `PlanRequest`. -/
structure ModeProvider where
  name : String
  detect : ModeExec → Except String Bool
  plan : ModeExec → List String → Except String PlanResult

/-- `mode.Modes`. -/
abbrev Modes := List ModeProvider

/-- Insertion sort on strings, modelling Go `slices.Sort` for `[]string`. -/
def sortStringsInsert (s : String) : List String → List String
  | [] => [s]
  | t :: ts => if s ≤ t then s :: t :: ts else t :: sortStringsInsert s ts

/-- Go `slices.Sort` for `[]string`. -/
def sortStrings : List String → List String
  | [] => []
  | s :: ss => sortStringsInsert s (sortStrings ss)

/-- `Modes.Names`: all provider names, sorted. -/
def modesNames (modes : Modes) : List String :=
  sortStrings (modes.map ModeProvider.name)

/-- The provider registered under a name: Go builds a map over the providers in
order, so with duplicate names the last provider wins. -/
def modesLookup (modes : Modes) (n : String) : Option ModeProvider :=
  modes.reverse.find? (fun m => m.name = n)

/-- The loop body of `Modes.Filter` over the requested names. -/
def modesFilterGo (modes : Modes) : List String → Except String Modes
  | [] => .ok []
  | inc :: rest =>
    match modesLookup modes inc with
    | none => .error ("unknown mode: " ++ inc)
    | some m =>
      match modesFilterGo modes rest with
      | .error e => .error e
      | .ok ms => .ok (m :: ms)

/-- `Modes.Filter`: reduce the registry to the requested names, in request
order; empty registries short-circuit to an empty (nil) result. -/
def modesFilter (modes : Modes) (include_ : List String) : Except String Modes :=
  if modes.isEmpty then .ok []
  else modesFilterGo modes include_

/-- `Modes.Detect`: run every provider's `Detect` and keep those that report
present; the first error aborts the batch, wrapped with the provider name.
(The Go original fans out on an errgroup; see the module comment.) -/
def modesDetect (modes : Modes) (E : ModeExec) : Except String Modes :=
  match modes with
  | [] => .ok []
  | m :: rest =>
    match m.detect E with
    | .error e => .error ("detecting " ++ m.name ++ ": " ++ e)
    | .ok detected =>
      match modesDetect rest E with
      | .error e => .error e
      | .ok ms => .ok (if detected then m :: ms else ms)

/-- `Modes.Plan`: run every provider's `Plan`, passing the full enabled-name
list; the first error aborts the batch, wrapped with the provider name.  The
Go original returns a map keyed by provider name; its (nondeterministic)
iteration order is modelled as provider-list order. -/
def modesPlanGo (E : ModeExec) (enabled : List String) :
    Modes → Except String (List (String × PlanResult))
  | [] => .ok []
  | m :: rest =>
    match m.plan E enabled with
    | .error e => .error ("planning " ++ m.name ++ ": " ++ e)
    | .ok r =>
      match modesPlanGo E enabled rest with
      | .error e => .error e
      | .ok rs => .ok ((m.name, r) :: rs)

/-- `Modes.Plan` entry point: populates the enabled-mode names first. -/
def modesPlan (modes : Modes) (E : ModeExec) : Except String (List (String × PlanResult)) :=
  modesPlanGo E (modesNames modes) modes

/-! ## Provider `Detect` implementations (providers file, `src/unnamed/part_001`) -/

/-- `AptProvider.Detect`: presence of `apt-config` on the path. -/
def aptDetect (E : ModeExec) : Except String Bool :=
  match E.lookPath "apt-config" with
  | .notFound => .ok false
  | .err m => .error ("lookpath apt-config: " ++ m)
  | .found _ => .ok true

/-- The shared shape of a binary-plus-single-marker `Detect`. -/
def detectBinMarker (bin marker : String) (E : ModeExec) : Except String Bool :=
  match E.lookPath bin with
  | .notFound => .ok false
  | .err m => .error ("lookpath " ++ bin ++ ": " ++ m)
  | .found _ =>
    match E.stat marker with
    | .notFound => .ok false
    | .err m => .error ("stat " ++ marker ++ ": " ++ m)
    | .ok => .ok true

/-- The shared shape of a binary-plus-any-of-markers `Detect` (the marker loop
of the go, golangci-lint, gradle, mise and nix providers). -/
def detectMarkerLoop (E : ModeExec) : List String → Except String Bool
  | [] => .ok false
  | marker :: rest =>
    match E.stat marker with
    | .ok => .ok true
    | .err m => .error ("stat " ++ marker ++ ": " ++ m)
    | .notFound => detectMarkerLoop E rest

/-- Binary lookup followed by a marker loop. -/
def detectBinMarkers (bin : String) (markers : List String) (E : ModeExec) :
    Except String Bool :=
  match E.lookPath bin with
  | .notFound => .ok false
  | .err m => .error ("lookpath " ++ bin ++ ": " ++ m)
  | .found _ => detectMarkerLoop E markers

/-- `BrewProvider.Detect`: `brew` binary and a `Brewfile`. -/
def brewDetect : ModeExec → Except String Bool := detectBinMarker "brew" "Brewfile"

/-- `BunProvider.Detect`. -/
def bunDetect : ModeExec → Except String Bool := detectBinMarker "bun" "bun.lock"

/-- `CocoapodsProvider.Detect`. -/
def cocoapodsDetect : ModeExec → Except String Bool := detectBinMarker "pod" "Podfile"

/-- `ComposerProvider.Detect`. -/
def composerDetect : ModeExec → Except String Bool := detectBinMarker "composer" "composer.json"

/-- `DenoProvider.Detect`. -/
def denoDetect : ModeExec → Except String Bool := detectBinMarker "deno" "deno.lock"

/-- `GoProvider.Detect` (providers file): `go` binary and `go.mod` or `go.work`. -/
def goDetect : ModeExec → Except String Bool := detectBinMarkers "go" ["go.mod", "go.work"]

/-- `GolangCILintProvider.Detect`. -/
def golangciDetect : ModeExec → Except String Bool :=
  detectBinMarkers "golangci-lint" [".golangci.yml", ".golangci.yaml"]

/-- `GradleProvider.Detect`. -/
def gradleDetect : ModeExec → Except String Bool :=
  detectBinMarkers "gradle" ["gradlew", "build.gradle"]

/-- `MavenProvider.Detect`. -/
def mavenDetect : ModeExec → Except String Bool := detectBinMarker "mvn" "pom.xml"

/-- The `mise` configuration marker files. -/
def miseConfigFiles : List String :=
  ["mise.toml", ".mise.toml", ".tool-versions", "mise/config.toml",
   ".mise/config.toml", ".config/mise.toml", ".config/mise/config.toml"]

/-- `MiseProvider.Detect`. -/
def miseDetect : ModeExec → Except String Bool := detectBinMarkers "mise" miseConfigFiles

/-- The `nix` project marker files. -/
def nixProjectFiles : List String := ["flake.nix", "shell.nix", "default.nix"]

/-- `NixProvider.Detect`. -/
def nixDetect : ModeExec → Except String Bool := detectBinMarkers "nix" nixProjectFiles

/-- `PlaywrightProvider.Detect`: binary presence alone. -/
def playwrightDetect (E : ModeExec) : Except String Bool :=
  match E.lookPath "playwright" with
  | .notFound => .ok false
  | .err m => .error ("lookpath playwright: " ++ m)
  | .found _ => .ok true

/-- `PnpmProvider.Detect`. -/
def pnpmDetect : ModeExec → Except String Bool := detectBinMarker "pnpm" "pnpm-lock.yaml"

/-- `PoetryProvider.Detect`. -/
def poetryDetect : ModeExec → Except String Bool := detectBinMarker "poetry" "poetry.lock"

/-- `PythonProvider.Detect`. -/
def pythonDetect : ModeExec → Except String Bool := detectBinMarker "pip" "requirements.txt"

/-- `RubyProvider.Detect`. -/
def rubyDetect : ModeExec → Except String Bool := detectBinMarker "bundle" "Gemfile"

/-- `RustProvider.Detect`. -/
def rustDetect : ModeExec → Except String Bool := detectBinMarker "cargo" "Cargo.toml"

/-- `SwiftPMProvider.Detect`. -/
def swiftpmDetect : ModeExec → Except String Bool := detectBinMarker "swift" "Package.swift"

/-- `UVProvider.Detect`. -/
def uvDetect : ModeExec → Except String Bool := detectBinMarker "uv" "uv.lock"

/-- `XcodeProvider.Detect`: `xcodebuild` binary and an `.xcodeproj` entry in
the current directory listing. -/
def xcodeDetect (E : ModeExec) : Except String Bool :=
  match E.lookPath "xcodebuild" with
  | .notFound => .ok false
  | .err m => .error ("lookpath xcodebuild: " ++ m)
  | .found _ =>
    match E.readDir "." with
    | .error e => .error ("readdir: " ++ e)
    | .ok entries => .ok (entries.any (fun n => goHasSuf ".xcodeproj" n))

/-- `YarnProvider.Detect`. -/
def yarnDetect : ModeExec → Except String Bool := detectBinMarker "yarn" "yarn.lock"

/-! ## Provider `Plan` implementations used by the claims -/

/-- The hard-coded golangci-lint fallback cache directory. -/
def golangCILintDefaultCacheDir : String := "~/.cache/golangci-lint"

/-- The scan loop of `GolangCILintProvider.Plan` (providers file): the cache
directory starts at the hard-coded default and is replaced by the value of the
first line whose trimmed, lowered form starts with `dir:` (the value is sliced
from the trimmed but unlowered line), stopping at that line. -/
def golangciScan : List String → String
  | [] => golangCILintDefaultCacheDir
  | l :: ls =>
    let line := goTrimSpace l
    if goHasPre "dir:" (goToLower line) then goTrimSpace (line.drop 4)
    else golangciScan ls

/-- `GolangCILintProvider.Plan` (providers file, `src/unnamed/part_001`): run
`golangci-lint cache status` and scan its lines; absence of a `dir:` line
leaves the hard-coded default.  (An older copy of this provider inside
`src/internal/cache/mode/mode.go` instead fails when no line matches; the
providers file is the current one and is what is embedded here.)  The
`scanner.Err()` check never fires on an in-memory reader and is not modelled. -/
def golangciPlan (E : ModeExec) : Except String PlanResult :=
  match E.output ["golangci-lint", "cache", "status"] with
  | .error e => .error ("golangci-lint cache status: " ++ e)
  | .ok out => .ok { mountPaths := [golangciScan (goScanLines out)] }

/-- The pnpm warning marker: thin space U+2009, `WARN`, thin space U+2009. -/
def pnpmWarningMark : String := "\u2009WARN\u2009"

/-- The pnpm version from which warnings stop polluting stdout. -/
def pnpmWarningFixVersion : String := "v9.7.0"

/-- How `PnpmProvider.Plan` derives the tool version from the `pnpm --version`
output: trim, split into lines, take the last line (warnings may precede it),
trim it and prepend `v`. -/
def pnpmVersion (versionOut : String) : String :=
  let versionLines := goSplitNl (goTrimSpace versionOut)
  "v" ++ goTrimSpace (versionLines.getLastD "")

/-- `PnpmProvider.Plan`: query the version, then `pnpm store path`; for
versions below the fix threshold drop every warning-marked line from the
output before trimming; fail on an empty result; select copy mode via an
environment variable. -/
def pnpmPlan (E : ModeExec) : Except String PlanResult :=
  match E.output ["pnpm", "--version"] with
  | .error e => .error ("pnpm --version: " ++ e)
  | .ok versionOut =>
    let version := pnpmVersion versionOut
    match E.output ["pnpm", "store", "path", "--loglevel", "error"] with
    | .error e => .error ("pnpm store path: " ++ e)
    | .ok out =>
      let cacheDir := goTrimSpace out
      let cacheDir :=
        if semverCompare version pnpmWarningFixVersion < 0 then
          let filtered := (goSplitNl out).filter (fun line => !goHasPre pnpmWarningMark line)
          goTrimSpace (goJoinNl filtered)
        else cacheDir
      if cacheDir = "" then .error "empty cache dir from pnpm store path"
      else .ok { addEnvs := [("npm_config_package_import_method", "copy")],
                 mountPaths := [cacheDir] }

/-- The `yarn --version` command. -/
def yarnVersionCmd : List String := ["yarn", "--version"]

/-- The yarn v1 cache-directory command. -/
def yarnV1CacheCmd : List String := ["yarn", "cache", "dir"]

/-- The yarn v2+ cache-directory command. -/
def yarnV2CacheCmd : List String := ["yarn", "config", "get", "cacheFolder"]

/-- `YarnProvider.Plan`: query the version; v1 (version starting `1.`) uses
`yarn cache dir`, later versions use `yarn config get cacheFolder`.  The
returned trace lists the commands issued, in order. -/
def yarnPlan (E : ModeExec) : Except String PlanResult × List (List String) :=
  match E.output yarnVersionCmd with
  | .error e => (.error ("yarn --version: " ++ e), [yarnVersionCmd])
  | .ok versionOut =>
    let version := goTrimSpace versionOut
    let cmd := if goHasPre "1." version then yarnV1CacheCmd else yarnV2CacheCmd
    match E.output cmd with
    | .error e => (.error ("yarn cache dir: " ++ e), [yarnVersionCmd, cmd])
    | .ok out =>
      let cacheDir := goTrimSpace out
      if cacheDir = "" then (.error "empty cache dir from yarn", [yarnVersionCmd, cmd])
      else (.ok { mountPaths := [cacheDir] }, [yarnVersionCmd, cmd])

/-! ## The cache package: mount orchestrator (`internal/cache/mount.go`) -/

/-- One call against the cache `Executor` interface.  Payload data that no
claim inspects (file bytes, permissions) is omitted. -/
inductive ExecCall where
  | diskUsage (path : String)
  | mkdirAll (path : String)
  | mount (cachePath mountPath : String)
  | removeAll (name : String)
  | stat (name : String)
  | writeFile (name : String)
deriving DecidableEq, Repr

/-- `cache.DiskUsage`. -/
structure DiskUsage where
  total : String
  used : String
deriving DecidableEq, Repr

/-- The cache `Executor` capability as an environment oracle: what each call
would return.  `Option String` effect results are `none` on success and
`some msg` on failure. -/
structure CacheExec where
  stat : String → StatRes
  mount : String → String → Option String
  removeAll : String → Option String
  mkdirAll : String → Option String
  writeFile : String → Option String
  diskUsage : Except String DiskUsage

/-- `cache.MountRequest`. -/
structure MountRequest where
  detectAllModes : Bool := false
  detectModes : List String := []
  manualModes : List String := []
  manualPaths : List String := []

/-- `cache.MountResult`: one mounted path. -/
structure MountResult where
  mode : String
  cachePath : String
  mountPath : String
  cacheHit : Bool
deriving DecidableEq, Repr

/-- `cache.MountResponseInput`. -/
structure MountResponseInput where
  modes : List String := []
  paths : List String := []
deriving DecidableEq, Repr

/-- `cache.MountResponseOutput`.  `AddEnvs` is an association list standing
for the Go map, updated with last-write-wins semantics. -/
structure MountResponseOutput where
  destructiveMode : Bool := false
  addEnvs : List (String × String) := []
  diskUsage : Option DiskUsage := none
  mounts : List MountResult := []
  removedPaths : List String := []
deriving DecidableEq, Repr

/-- `cache.MountResponse`. -/
structure MountResponse where
  input : MountResponseInput := {}
  output : MountResponseOutput := {}
deriving DecidableEq, Repr

/-- `cache.CacheMetadataEntry`. -/
structure CacheMetadataEntry where
  cacheFramework : Option String
  mountTarget : List String
  source : String
deriving DecidableEq, Repr

/-- `cache.CacheMetadata`.  `userRequest` is an association list standing for
the Go map keyed by cache path. -/
structure CacheMetadata where
  updatedAt : String
  version : Nat
  userRequest : List (String × CacheMetadataEntry)
deriving DecidableEq, Repr

/-- Go map assignment `m[k] = v` on an association list: replace the value of
an existing key, otherwise append the binding. -/
def mapSet (m : List (String × String)) (k v : String) : List (String × String) :=
  if m.any (fun kv => kv.1 = k) then m.map (fun kv => if kv.1 = k then (k, v) else kv)
  else m ++ [(k, v)]

/-- Go map assignment for the metadata map. -/
def mapSetMeta (m : List (String × CacheMetadataEntry)) (k : String) (v : CacheMetadataEntry) :
    List (String × CacheMetadataEntry) :=
  if m.any (fun kv => kv.1 = k) then m.map (fun kv => if kv.1 = k then (k, v) else kv)
  else m ++ [(k, v)]

/-- `cache.Mounter`.  The executor is the behaviour oracle; `home` is the
outcome of `os.UserHomeDir`; `now` the RFC3339 timestamp `time.Now` would
render (`writeMetadata` embeds it in the metadata record). -/
structure Mounter where
  destructiveMode : Bool
  cacheRoot : String
  exec : CacheExec
  modes : Modes
  home : Except String String
  now : String

/-- `cache.resolveHome`: expand a leading `~` or `~/` against the user's home
directory; other `~`-prefixed shapes (such as `~user/x`) pass through
unchanged.  The home-directory lookup happens before the shape dispatch, so
its failure aborts every `~`-prefixed path. -/
def resolveHome (home : Except String String) (path : String) : Except String String :=
  if !goHasPre "~" path then .ok path
  else
    match home with
    | .error e => .error ("get user home dir: " ++ e)
    | .ok h =>
      if path = "~" then .ok h
      else if goHasPre "~/" path then .ok (filepathJoin h (path.drop 2))
      else .ok path

/-- `Mounter.mountPath`: resolve the path, join it under the cache root, stat
the cache path (errors other than not-found abort; existence is the cache
hit), then — only in destructive mode — call the executor's `Mount`. -/
def Mounter.mountPath (m : Mounter) (modeName path : String) :
    Except String MountResult × List ExecCall :=
  match resolveHome m.home path with
  | .error e => (.error ("resolving path: " ++ e), [])
  | .ok p =>
    let cachePath := filepathJoin m.cacheRoot p
    let mnt : MountResult := { mode := modeName, cachePath := cachePath,
                               mountPath := p, cacheHit := false }
    match m.exec.stat cachePath with
    | .err e => (.error ("stat cache path " ++ goQuote cachePath ++ ": " ++ e),
                 [.stat cachePath])
    | st =>
      let mnt := { mnt with cacheHit := st = .ok }
      if !m.destructiveMode then (.ok mnt, [.stat cachePath])
      else
        match m.exec.mount cachePath p with
        | some e => (.error ("mounting " ++ goQuote cachePath ++ " to " ++ goQuote p ++ ": " ++ e),
                     [.stat cachePath, .mount cachePath p])
        | none => (.ok mnt, [.stat cachePath, .mount cachePath p])

/-- `Mounter.removePath`: record the path in the result unconditionally; only
destructive mode calls the executor's `RemoveAll`. -/
def Mounter.removePath (m : Mounter) (path : String) (result : MountResponse) :
    Except String MountResponse × List ExecCall :=
  let result := { result with
    output.removedPaths := result.output.removedPaths ++ [path] }
  if !m.destructiveMode then (.ok result, [])
  else
    match m.exec.removeAll path with
    | some e => (.error ("removing " ++ goQuote path ++ ": " ++ e), [.removeAll path])
    | none => (.ok result, [.removeAll path])

/-- The metadata file path `<cache root>/.ns/cache-metadata.json`. -/
def metadataPath (cacheRoot : String) : String :=
  filepathJoin cacheRoot (filepathJoin ".ns" "cache-metadata.json")

/-- The metadata record built by `Mounter.writeMetadata` from the mounts
reported so far. -/
def buildMetadata (now : String) (mounts : List MountResult) : CacheMetadata :=
  { updatedAt := now
    version := 1
    userRequest := mounts.foldl (fun acc mnt =>
      mapSetMeta acc mnt.cachePath
        { cacheFramework := if mnt.mode ≠ "" then some mnt.mode else none
          mountTarget := [mnt.mountPath]
          source := "space" }) [] }

/-- `Mounter.writeMetadata`: skipped entirely in non-destructive mode;
otherwise build the metadata record, create the metadata directory and write
the metadata file.  (JSON rendering of the `CacheMetadata` value is not
modelled: the value written is `buildMetadata m.now result.output.mounts`,
and `json.MarshalIndent` cannot fail on it.) -/
def Mounter.writeMetadata (m : Mounter) (result : MountResponse) :
    Except String Unit × List ExecCall :=
  let mPath := metadataPath m.cacheRoot
  if !m.destructiveMode then (.ok (), [])
  else
    let _metadata := buildMetadata m.now result.output.mounts
    let mDir := filepathDir mPath
    match m.exec.mkdirAll mDir with
    | some e => (.error ("creating metadata directory: " ++ e), [.mkdirAll mDir])
    | none =>
      match m.exec.writeFile mPath with
      | some e => (.error ("writing metadata file: " ++ e), [.mkdirAll mDir, .writeFile mPath])
      | none => (.ok (), [.mkdirAll mDir, .writeFile mPath])

/-- The mount loop inside `Mounter.mountModes` over one plan's `MountPaths`. -/
def Mounter.mountPlanPaths (m : Mounter) (modeName : String) (paths : List String)
    (result : MountResponse) : Except String MountResponse × List ExecCall :=
  match paths with
  | [] => (.ok result, [])
  | path :: rest =>
    match m.mountPath modeName path with
    | (.error e, tr) => (.error ("mounting mode path " ++ goQuote path ++ ": " ++ e), tr)
    | (.ok mnt, tr) =>
      let result := { result with output.mounts := result.output.mounts ++ [mnt] }
      match m.mountPlanPaths modeName rest result with
      | (r, tr2) => (r, tr ++ tr2)

/-- The env-aggregation loop inside `Mounter.mountModes`: copy one plan's
`AddEnvs` into the result map (last write wins across plans). -/
def addEnvsLoop (envs : List (String × String)) (result : MountResponse) : MountResponse :=
  envs.foldl (fun acc kv =>
    { acc with output.addEnvs := mapSet acc.output.addEnvs kv.1 kv.2 }) result

/-- The removal loop inside `Mounter.mountModes` over one plan's `RemovePaths`. -/
def Mounter.removePlanPaths (m : Mounter) (paths : List String) (result : MountResponse) :
    Except String MountResponse × List ExecCall :=
  match paths with
  | [] => (.ok result, [])
  | path :: rest =>
    match m.removePath path result with
    | (.error e, tr) => (.error ("removing mode path " ++ goQuote path ++ ": " ++ e), tr)
    | (.ok result, tr) =>
      match m.removePlanPaths rest result with
      | (r, tr2) => (r, tr ++ tr2)

/-- One iteration of the plan loop of `Mounter.mountModes`: mount the plan's
paths, aggregate its envs, process its removals. -/
def Mounter.mountPlanEntry (m : Mounter) (entry : String × PlanResult)
    (result : MountResponse) : Except String MountResponse × List ExecCall :=
  match m.mountPlanPaths entry.1 entry.2.mountPaths result with
  | (.error e, tr) => (.error e, tr)
  | (.ok result, tr) =>
    let result := addEnvsLoop entry.2.addEnvs result
    match m.removePlanPaths entry.2.removePaths result with
    | (r, tr2) => (r, tr ++ tr2)

/-- The plan loop of `Mounter.mountModes` over all planned modes. -/
def Mounter.mountPlans (m : Mounter) (plans : List (String × PlanResult))
    (result : MountResponse) : Except String MountResponse × List ExecCall :=
  match plans with
  | [] => (.ok result, [])
  | entry :: rest =>
    match m.mountPlanEntry entry result with
    | (.error e, tr) => (.error e, tr)
    | (.ok result, tr) =>
      match m.mountPlans rest result with
      | (r, tr2) => (r, tr ++ tr2)

/-- `Mounter.mountModes`: record the mode names, plan all modes against the
ambient environment, and process every plan. -/
def Mounter.mountModes (m : Mounter) (menv : ModeExec) (modes : Modes)
    (result : MountResponse) : Except String MountResponse × List ExecCall :=
  let result := { result with input.modes := modesNames modes }
  match modesPlan modes menv with
  | .error e => (.error e, [])
  | .ok plans => m.mountPlans plans result

/-- The loop of `Mounter.mountPaths` over the manually requested paths. -/
def Mounter.mountManualLoop (m : Mounter) (paths : List String) (result : MountResponse) :
    Except String MountResponse × List ExecCall :=
  match paths with
  | [] => (.ok result, [])
  | path :: rest =>
    match m.mountPath "" path with
    | (.error e, tr) => (.error ("mounting path " ++ goQuote path ++ ": " ++ e), tr)
    | (.ok mnt, tr) =>
      let result := { result with output.mounts := result.output.mounts ++ [mnt] }
      match m.mountManualLoop rest result with
      | (r, tr2) => (r, tr ++ tr2)

/-- `Mounter.mountPaths`: record and mount the manually requested paths, with
an empty mode name. -/
def Mounter.mountManualPaths (m : Mounter) (paths : List String)
    (result : MountResponse) : Except String MountResponse × List ExecCall :=
  let result := { result with input.paths := result.input.paths ++ paths }
  m.mountManualLoop paths result

/-- `MountRequest.EnabledModes`: fail on an entirely empty request; otherwise
start from the manual modes, detect the requested (or all) modes against the
ambient environment, and filter the combined name set against the registry. -/
def MountRequest.enabledModes (req : MountRequest) (available : Modes) (menv : ModeExec) :
    Except String Modes :=
  if !req.detectAllModes && req.detectModes.isEmpty && req.manualModes.isEmpty &&
      req.manualPaths.isEmpty then
    .error "at least one cache mode or path must be specified"
  else
    let enabled := req.manualModes
    let detect := if req.detectAllModes then modesNames available else req.detectModes
    if !detect.isEmpty then
      match modesFilter available detect with
      | .error e => .error e
      | .ok filtered =>
        match modesDetect filtered menv with
        | .error e => .error e
        | .ok detected => modesFilter available (enabled ++ modesNames detected)
    else modesFilter available enabled

/-- `Mounter.Mount`: resolve the enabled modes, mount them, mount the manual
paths, write the metadata, and attach the (best-effort) disk usage. -/
def Mounter.mount (m : Mounter) (menv : ModeExec) (req : MountRequest) :
    Except String MountResponse × List ExecCall :=
  let result : MountResponse := { output := { destructiveMode := m.destructiveMode } }
  match req.enabledModes m.modes menv with
  | .error e => (.error e, [])
  | .ok modes =>
    match m.mountModes menv modes result with
    | (.error e, tr) => (.error e, tr)
    | (.ok result, tr1) =>
      match m.mountManualPaths req.manualPaths result with
      | (.error e, tr2) => (.error e, tr1 ++ tr2)
      | (.ok result, tr2) =>
        match m.writeMetadata result with
        | (.error e, tr3) => (.error e, tr1 ++ tr2 ++ tr3)
        | (.ok _, tr3) =>
          let result :=
            match m.exec.diskUsage with
            | .ok usage => { result with output.diskUsage := some usage }
            | .error _ => result
          (.ok result, tr1 ++ tr2 ++ tr3 ++ [.diskUsage m.cacheRoot])

/-! ## Claim C2: the empty mount request -/

/-- C2: for the empty `MountRequest` (no detection, no manual modes, no manual
paths), `Mounter.Mount` fails with the validation error
"at least one cache mode or path must be specified" and issues no call against
the cache `Executor`, whatever the mounter configuration and environment. -/
theorem c2_empty_request_rejected (destr : Bool) (root : String) (ex : CacheExec)
    (modes : Modes) (home : Except String String) (now : String) (menv : ModeExec) :
    Mounter.mount ⟨destr, root, ex, modes, home, now⟩ menv {} =
      (.error "at least one cache mode or path must be specified", []) := by
  rfl

/-! ## Claim C10: home expansion only for `~` and `~/` -/

/-- C10: `resolveHome` expands only the path `~` itself and paths beginning
with `~/`; any other `~`-prefixed path (such as `~user/x`) is returned
unchanged with no error, provided the home-directory lookup (which the code
performs before dispatching on the path shape) succeeds. -/
theorem c10_resolve_home_passthrough (home path : String)
    (h1 : goHasPre "~" path = true) (h2 : path ≠ "~") (h3 : goHasPre "~/" path = false) :
    resolveHome (.ok home) path = .ok path := by
  simp [resolveHome, h1, h2, h3]

/-- Witness for C10 at the concrete path `~user/x`. -/
theorem c10_resolve_home_passthrough_witness :
    goHasPre "~" "~user/x" = true ∧ "~user/x" ≠ "~" ∧ goHasPre "~/" "~user/x" = false ∧
      resolveHome (.ok "/home/u") "~user/x" = .ok "~user/x" :=
  ⟨by decide, by decide, by decide,
   c10_resolve_home_passthrough "/home/u" "~user/x" (by decide) (by decide) (by decide)⟩

/-! ## Claim C6: binary-not-found is a negative detection, never an error -/

/-- C6: for every provider in the registry, `Detect` answers `(false, nil)` —
modelled as `.ok false` — whenever locating the ecosystem's primary binary
fails with the distinguished executable-not-found error. -/
theorem c6_not_found_is_negative (E : ModeExec) :
    (E.lookPath "apt-config" = .notFound → aptDetect E = .ok false) ∧
    (E.lookPath "brew" = .notFound → brewDetect E = .ok false) ∧
    (E.lookPath "bun" = .notFound → bunDetect E = .ok false) ∧
    (E.lookPath "pod" = .notFound → cocoapodsDetect E = .ok false) ∧
    (E.lookPath "composer" = .notFound → composerDetect E = .ok false) ∧
    (E.lookPath "deno" = .notFound → denoDetect E = .ok false) ∧
    (E.lookPath "go" = .notFound → goDetect E = .ok false) ∧
    (E.lookPath "golangci-lint" = .notFound → golangciDetect E = .ok false) ∧
    (E.lookPath "gradle" = .notFound → gradleDetect E = .ok false) ∧
    (E.lookPath "mvn" = .notFound → mavenDetect E = .ok false) ∧
    (E.lookPath "mise" = .notFound → miseDetect E = .ok false) ∧
    (E.lookPath "nix" = .notFound → nixDetect E = .ok false) ∧
    (E.lookPath "playwright" = .notFound → playwrightDetect E = .ok false) ∧
    (E.lookPath "pnpm" = .notFound → pnpmDetect E = .ok false) ∧
    (E.lookPath "poetry" = .notFound → poetryDetect E = .ok false) ∧
    (E.lookPath "pip" = .notFound → pythonDetect E = .ok false) ∧
    (E.lookPath "bundle" = .notFound → rubyDetect E = .ok false) ∧
    (E.lookPath "cargo" = .notFound → rustDetect E = .ok false) ∧
    (E.lookPath "swift" = .notFound → swiftpmDetect E = .ok false) ∧
    (E.lookPath "uv" = .notFound → uvDetect E = .ok false) ∧
    (E.lookPath "xcodebuild" = .notFound → xcodeDetect E = .ok false) ∧
    (E.lookPath "yarn" = .notFound → yarnDetect E = .ok false) := by
  refine ⟨?_, ?_, ?_, ?_, ?_, ?_, ?_, ?_, ?_, ?_, ?_, ?_, ?_, ?_, ?_, ?_, ?_, ?_, ?_,
    ?_, ?_, ?_⟩ <;> intro h <;>
    simp [aptDetect, brewDetect, bunDetect, cocoapodsDetect, composerDetect, denoDetect,
      goDetect, golangciDetect, gradleDetect, mavenDetect, miseDetect, nixDetect,
      playwrightDetect, pnpmDetect, poetryDetect, pythonDetect, rubyDetect, rustDetect,
      swiftpmDetect, uvDetect, xcodeDetect, yarnDetect,
      detectBinMarker, detectBinMarkers, h]

/-- An environment in which no binary resolves. -/
def noBinaryEnv : ModeExec :=
  ⟨fun _ => .notFound, fun _ => .error "unused", fun _ => .notFound, fun _ => .error "unused"⟩

/-- Witness for C6: in an environment where every binary lookup reports
not-found, every provider detects negatively without error. -/
theorem c6_not_found_is_negative_witness :
    aptDetect noBinaryEnv = .ok false ∧ brewDetect noBinaryEnv = .ok false ∧
    bunDetect noBinaryEnv = .ok false ∧ cocoapodsDetect noBinaryEnv = .ok false ∧
    composerDetect noBinaryEnv = .ok false ∧ denoDetect noBinaryEnv = .ok false ∧
    goDetect noBinaryEnv = .ok false ∧ golangciDetect noBinaryEnv = .ok false ∧
    gradleDetect noBinaryEnv = .ok false ∧ mavenDetect noBinaryEnv = .ok false ∧
    miseDetect noBinaryEnv = .ok false ∧ nixDetect noBinaryEnv = .ok false ∧
    playwrightDetect noBinaryEnv = .ok false ∧ pnpmDetect noBinaryEnv = .ok false ∧
    poetryDetect noBinaryEnv = .ok false ∧ pythonDetect noBinaryEnv = .ok false ∧
    rubyDetect noBinaryEnv = .ok false ∧ rustDetect noBinaryEnv = .ok false ∧
    swiftpmDetect noBinaryEnv = .ok false ∧ uvDetect noBinaryEnv = .ok false ∧
    xcodeDetect noBinaryEnv = .ok false ∧ yarnDetect noBinaryEnv = .ok false := by
  have h := c6_not_found_is_negative noBinaryEnv
  exact ⟨h.1 rfl, h.2.1 rfl, h.2.2.1 rfl, h.2.2.2.1 rfl, h.2.2.2.2.1 rfl,
    h.2.2.2.2.2.1 rfl, h.2.2.2.2.2.2.1 rfl, h.2.2.2.2.2.2.2.1 rfl,
    h.2.2.2.2.2.2.2.2.1 rfl, h.2.2.2.2.2.2.2.2.2.1 rfl,
    h.2.2.2.2.2.2.2.2.2.2.1 rfl, h.2.2.2.2.2.2.2.2.2.2.2.1 rfl,
    h.2.2.2.2.2.2.2.2.2.2.2.2.1 rfl, h.2.2.2.2.2.2.2.2.2.2.2.2.2.1 rfl,
    h.2.2.2.2.2.2.2.2.2.2.2.2.2.2.1 rfl, h.2.2.2.2.2.2.2.2.2.2.2.2.2.2.2.1 rfl,
    h.2.2.2.2.2.2.2.2.2.2.2.2.2.2.2.2.1 rfl, h.2.2.2.2.2.2.2.2.2.2.2.2.2.2.2.2.2.1 rfl,
    h.2.2.2.2.2.2.2.2.2.2.2.2.2.2.2.2.2.2.1 rfl,
    h.2.2.2.2.2.2.2.2.2.2.2.2.2.2.2.2.2.2.2.1 rfl,
    h.2.2.2.2.2.2.2.2.2.2.2.2.2.2.2.2.2.2.2.2.1 rfl,
    h.2.2.2.2.2.2.2.2.2.2.2.2.2.2.2.2.2.2.2.2.2 rfl⟩

/-! ## Claim C7: marker-file detection

The claim's second equivalence — `(false, nil)` if and only if the binary
resolves and the marker is absent — fails: a not-found binary lookup also
yields `(false, nil)` (that is exactly claim C6).  The corrected
characterisation adds that disjunct. -/

/-- Counterexample to C7 as stated: the brew provider (binary plus `Brewfile`
marker) answers `(false, nil)` in an environment where the binary does *not*
resolve, so `(false, nil)` does not imply "binary resolves and marker
missing". -/
theorem c7_marker_detect_cex :
    brewDetect noBinaryEnv = .ok false ∧ noBinaryEnv.lookPath "brew" = .notFound :=
  ⟨rfl, rfl⟩

/-- `detectBinMarker` answers `.ok true` exactly when the binary resolves and
the marker stats successfully. -/
theorem detectBinMarker_true_iff (bin marker : String) (E : ModeExec) :
    detectBinMarker bin marker E = .ok true ↔
      (∃ p, E.lookPath bin = .found p) ∧ E.stat marker = .ok := by
  cases h1 : E.lookPath bin <;> cases h2 : E.stat marker <;>
    simp [detectBinMarker, h1, h2]

/-- `detectBinMarker` answers `.ok false` exactly when the binary is
not-found, or the binary resolves and the marker stat reports not-found. -/
theorem detectBinMarker_false_iff (bin marker : String) (E : ModeExec) :
    detectBinMarker bin marker E = .ok false ↔
      (E.lookPath bin = .notFound ∨
        ((∃ p, E.lookPath bin = .found p) ∧ E.stat marker = .notFound)) := by
  cases h1 : E.lookPath bin <;> cases h2 : E.stat marker <;>
    simp [detectBinMarker, h1, h2]

/-- C7 (amended): for every provider requiring a single workspace marker file,
`Detect` returns `(true, nil)` iff the binary resolves and the marker file
stats successfully, and returns `(false, nil)` iff the binary lookup reports
not-found or the binary resolves but the marker stat reports not-found. -/
theorem c7_marker_detect_amended (E : ModeExec) :
    (brewDetect E = .ok true ↔ (∃ p, E.lookPath "brew" = .found p) ∧ E.stat "Brewfile" = .ok) ∧
    (brewDetect E = .ok false ↔ (E.lookPath "brew" = .notFound ∨
      ((∃ p, E.lookPath "brew" = .found p) ∧ E.stat "Brewfile" = .notFound))) ∧
    (bunDetect E = .ok true ↔ (∃ p, E.lookPath "bun" = .found p) ∧ E.stat "bun.lock" = .ok) ∧
    (bunDetect E = .ok false ↔ (E.lookPath "bun" = .notFound ∨
      ((∃ p, E.lookPath "bun" = .found p) ∧ E.stat "bun.lock" = .notFound))) ∧
    (cocoapodsDetect E = .ok true ↔ (∃ p, E.lookPath "pod" = .found p) ∧ E.stat "Podfile" = .ok) ∧
    (cocoapodsDetect E = .ok false ↔ (E.lookPath "pod" = .notFound ∨
      ((∃ p, E.lookPath "pod" = .found p) ∧ E.stat "Podfile" = .notFound))) ∧
    (composerDetect E = .ok true ↔
      (∃ p, E.lookPath "composer" = .found p) ∧ E.stat "composer.json" = .ok) ∧
    (composerDetect E = .ok false ↔ (E.lookPath "composer" = .notFound ∨
      ((∃ p, E.lookPath "composer" = .found p) ∧ E.stat "composer.json" = .notFound))) ∧
    (denoDetect E = .ok true ↔ (∃ p, E.lookPath "deno" = .found p) ∧ E.stat "deno.lock" = .ok) ∧
    (denoDetect E = .ok false ↔ (E.lookPath "deno" = .notFound ∨
      ((∃ p, E.lookPath "deno" = .found p) ∧ E.stat "deno.lock" = .notFound))) ∧
    (mavenDetect E = .ok true ↔ (∃ p, E.lookPath "mvn" = .found p) ∧ E.stat "pom.xml" = .ok) ∧
    (mavenDetect E = .ok false ↔ (E.lookPath "mvn" = .notFound ∨
      ((∃ p, E.lookPath "mvn" = .found p) ∧ E.stat "pom.xml" = .notFound))) ∧
    (pnpmDetect E = .ok true ↔
      (∃ p, E.lookPath "pnpm" = .found p) ∧ E.stat "pnpm-lock.yaml" = .ok) ∧
    (pnpmDetect E = .ok false ↔ (E.lookPath "pnpm" = .notFound ∨
      ((∃ p, E.lookPath "pnpm" = .found p) ∧ E.stat "pnpm-lock.yaml" = .notFound))) ∧
    (poetryDetect E = .ok true ↔
      (∃ p, E.lookPath "poetry" = .found p) ∧ E.stat "poetry.lock" = .ok) ∧
    (poetryDetect E = .ok false ↔ (E.lookPath "poetry" = .notFound ∨
      ((∃ p, E.lookPath "poetry" = .found p) ∧ E.stat "poetry.lock" = .notFound))) ∧
    (pythonDetect E = .ok true ↔
      (∃ p, E.lookPath "pip" = .found p) ∧ E.stat "requirements.txt" = .ok) ∧
    (pythonDetect E = .ok false ↔ (E.lookPath "pip" = .notFound ∨
      ((∃ p, E.lookPath "pip" = .found p) ∧ E.stat "requirements.txt" = .notFound))) ∧
    (rubyDetect E = .ok true ↔ (∃ p, E.lookPath "bundle" = .found p) ∧ E.stat "Gemfile" = .ok) ∧
    (rubyDetect E = .ok false ↔ (E.lookPath "bundle" = .notFound ∨
      ((∃ p, E.lookPath "bundle" = .found p) ∧ E.stat "Gemfile" = .notFound))) ∧
    (rustDetect E = .ok true ↔ (∃ p, E.lookPath "cargo" = .found p) ∧ E.stat "Cargo.toml" = .ok) ∧
    (rustDetect E = .ok false ↔ (E.lookPath "cargo" = .notFound ∨
      ((∃ p, E.lookPath "cargo" = .found p) ∧ E.stat "Cargo.toml" = .notFound))) ∧
    (swiftpmDetect E = .ok true ↔
      (∃ p, E.lookPath "swift" = .found p) ∧ E.stat "Package.swift" = .ok) ∧
    (swiftpmDetect E = .ok false ↔ (E.lookPath "swift" = .notFound ∨
      ((∃ p, E.lookPath "swift" = .found p) ∧ E.stat "Package.swift" = .notFound))) ∧
    (uvDetect E = .ok true ↔ (∃ p, E.lookPath "uv" = .found p) ∧ E.stat "uv.lock" = .ok) ∧
    (uvDetect E = .ok false ↔ (E.lookPath "uv" = .notFound ∨
      ((∃ p, E.lookPath "uv" = .found p) ∧ E.stat "uv.lock" = .notFound))) ∧
    (yarnDetect E = .ok true ↔ (∃ p, E.lookPath "yarn" = .found p) ∧ E.stat "yarn.lock" = .ok) ∧
    (yarnDetect E = .ok false ↔ (E.lookPath "yarn" = .notFound ∨
      ((∃ p, E.lookPath "yarn" = .found p) ∧ E.stat "yarn.lock" = .notFound))) := by
  refine ⟨?_, ?_, ?_, ?_, ?_, ?_, ?_, ?_, ?_, ?_, ?_, ?_, ?_, ?_, ?_, ?_, ?_, ?_, ?_, ?_,
    ?_, ?_, ?_, ?_, ?_, ?_, ?_, ?_⟩ <;>
    first
      | exact detectBinMarker_true_iff _ _ E
      | exact detectBinMarker_false_iff _ _ E

/-! ## Claim C5: `Modes.Filter`

The claim fails for the empty registry: `Filter` short-circuits to a nil
result before examining the requested names, so absent names do not produce
an error there.  For non-empty registries the claim holds as stated. -/

/-- Counterexample to C5 as stated: filtering the empty registry by a name
that is absent from it (the registry has no entry at all under that name)
returns a nil result and no "unknown mode" error. -/
theorem c5_filter_cex :
    modesFilter ([] : Modes) ["zzz"] = .ok [] ∧ modesLookup ([] : Modes) "zzz" = none :=
  ⟨rfl, rfl⟩

/-- A registered name yields a lookup hit carrying that name. -/
theorem modesLookup_found (modes : Modes) (n : String)
    (h : ∃ p ∈ modes, p.name = n) :
    ∃ q, modesLookup modes n = some q ∧ q.name = n := by
  obtain ⟨p, hp, hpn⟩ := h
  have hmem : ∃ x ∈ modes.reverse, x.name = n := ⟨p, by simpa using hp, hpn⟩
  have hsome : (modes.reverse.find? (fun m => m.name = n)).isSome = true := by
    rw [List.find?_isSome]
    obtain ⟨x, hx, hxn⟩ := hmem
    exact ⟨x, hx, by simp [hxn]⟩
  obtain ⟨q, hq⟩ := Option.isSome_iff_exists.mp hsome
  refine ⟨q, hq, ?_⟩
  have := List.find?_some hq
  simpa using this

/-- An unregistered name yields no lookup hit. -/
theorem modesLookup_absent (modes : Modes) (n : String)
    (h : ∀ p ∈ modes, p.name ≠ n) :
    modesLookup modes n = none := by
  rw [modesLookup, List.find?_eq_none]
  intro x hx
  simpa using h x (by simpa using hx)

/-- The `Filter` loop succeeds on fully registered name lists, returning one
provider per name in exactly the order the names were given. -/
theorem modesFilterGo_ok (modes : Modes) (names : List String)
    (h : ∀ n ∈ names, ∃ p ∈ modes, p.name = n) :
    ∃ fs, modesFilterGo modes names = .ok fs ∧ fs.map ModeProvider.name = names := by
  induction names with
  | nil => exact ⟨[], rfl, rfl⟩
  | cons n rest ih =>
    obtain ⟨q, hq, hqn⟩ := modesLookup_found modes n (h n (by simp))
    obtain ⟨fs, hfs, hmap⟩ := ih (fun x hx => h x (by simp [hx]))
    exact ⟨q :: fs, by simp [modesFilterGo, hq, hfs], by simp [hqn, hmap]⟩

/-- The `Filter` loop short-circuits at the first unregistered name, naming
it in the error. -/
theorem modesFilterGo_err (modes : Modes) (pre : List String) (n : String)
    (post : List String)
    (hpre : ∀ x ∈ pre, ∃ p ∈ modes, p.name = x)
    (habs : ∀ p ∈ modes, p.name ≠ n) :
    modesFilterGo modes (pre ++ n :: post) = .error ("unknown mode: " ++ n) := by
  induction pre with
  | nil => simp [modesFilterGo, modesLookup_absent modes n habs]
  | cons x rest ih =>
    obtain ⟨q, hq, _⟩ := modesLookup_found modes x (hpre x (by simp))
    have hrest := ih (fun y hy => hpre y (by simp [hy]))
    simp [modesFilterGo, hq, hrest]

/-- C5 (amended): for every *non-empty* registry, `Filter` returns the named
providers in exactly the order the names were given, and fails with an
"unknown mode" error naming the first unknown entry as soon as any requested
name is absent; the empty registry instead short-circuits to a nil result
with no error. -/
theorem c5_filter_amended (modes : Modes) (hne : modes ≠ []) :
    (∀ names : List String, (∀ n ∈ names, ∃ p ∈ modes, p.name = n) →
      ∃ fs, modesFilter modes names = .ok fs ∧ fs.map ModeProvider.name = names) ∧
    (∀ (pre : List String) (n : String) (post : List String),
      (∀ x ∈ pre, ∃ p ∈ modes, p.name = x) → (∀ p ∈ modes, p.name ≠ n) →
      modesFilter modes (pre ++ n :: post) = .error ("unknown mode: " ++ n)) := by
  have hempty : modes.isEmpty = false := by
    cases modes with
    | nil => exact absurd rfl hne
    | cons a as => rfl
  constructor
  · intro names h
    rw [modesFilter, hempty]
    exact modesFilterGo_ok modes names h
  · intro pre n post hpre habs
    rw [modesFilter, hempty]
    exact modesFilterGo_err modes pre n post hpre habs

/-- A one-provider registry used as a concrete witness input. -/
def aptOnlyRegistry : Modes :=
  [⟨"apt", fun _ => .ok false, fun _ _ => .ok {}⟩]

/-- Witness for the amended C5 on a concrete one-provider registry: a
registered name filters to itself, an unregistered one errors naming it. -/
theorem c5_filter_amended_witness :
    (∃ fs, modesFilter aptOnlyRegistry ["apt"] = .ok fs ∧
      fs.map ModeProvider.name = ["apt"]) ∧
    modesFilter aptOnlyRegistry ["zzz"] = .error "unknown mode: zzz" := by
  have h := c5_filter_amended aptOnlyRegistry (by simp [aptOnlyRegistry])
  constructor
  · refine h.1 ["apt"] ?_
    intro n hn
    simp only [List.mem_singleton] at hn
    subst hn
    simp [aptOnlyRegistry]
  · have habs : ∀ p ∈ aptOnlyRegistry, p.name ≠ "zzz" := by
      intro p hp
      simp only [aptOnlyRegistry, List.mem_singleton] at hp
      subst hp
      simp
    simpa using h.2 [] "zzz" [] (by simp) habs

/-! ## Claim C4: batch Detect/Plan fail fast with a wrapped error -/

/-- If some provider's `Detect` fails, the batch `Detect` fails with that
(first failing) provider's name and message wrapped, and carries no result
collection. -/
theorem modesDetect_err (modes : Modes) (E : ModeExec)
    (h : ∃ p ∈ modes, ∃ e, p.detect E = .error e) :
    ∃ p e, p ∈ modes ∧ p.detect E = .error e ∧
      modesDetect modes E = .error ("detecting " ++ p.name ++ ": " ++ e) := by
  induction modes with
  | nil => simp at h
  | cons m rest ih =>
    cases hm : m.detect E with
    | error e =>
      exact ⟨m, e, by simp, hm, by simp [modesDetect, hm]⟩
    | ok b =>
      obtain ⟨p, hp, e, hpe⟩ := h
      have hprest : p ∈ rest := by
        rcases List.mem_cons.mp hp with h1 | h1
        · subst h1; rw [hm] at hpe; cases hpe
        · exact h1
      obtain ⟨p', e', hp', hpe', hres⟩ := ih ⟨p, hprest, e, hpe⟩
      refine ⟨p', e', by simp [hp'], hpe', ?_⟩
      simp [modesDetect, hm, hres]

/-- If some provider's `Plan` fails, the batch loop fails with that (first
failing) provider's name and message wrapped. -/
theorem modesPlanGo_err (E : ModeExec) (enabled : List String) (modes : Modes)
    (h : ∃ p ∈ modes, ∃ e, p.plan E enabled = .error e) :
    ∃ p e, p ∈ modes ∧ p.plan E enabled = .error e ∧
      modesPlanGo E enabled modes = .error ("planning " ++ p.name ++ ": " ++ e) := by
  induction modes with
  | nil => simp at h
  | cons m rest ih =>
    cases hm : m.plan E enabled with
    | error e =>
      exact ⟨m, e, by simp, hm, by simp [modesPlanGo, hm]⟩
    | ok r =>
      obtain ⟨p, hp, e, hpe⟩ := h
      have hprest : p ∈ rest := by
        rcases List.mem_cons.mp hp with h1 | h1
        · subst h1; rw [hm] at hpe; cases hpe
        · exact h1
      obtain ⟨p', e', hp', hpe', hres⟩ := ih ⟨p, hprest, e, hpe⟩
      refine ⟨p', e', by simp [hp'], hpe', ?_⟩
      simp [modesPlanGo, hm, hres]

/-- C4: whenever at least one provider of a registry fails to `Detect`
(respectively `Plan`), the batch operation returns an error wrapping the
failing provider's name and its underlying message.  The `Except.error`
result carries no collection at all, so no partial sibling results escape. -/
theorem c4_registry_fail_fast :
    (∀ (modes : Modes) (E : ModeExec), (∃ p ∈ modes, ∃ e, p.detect E = .error e) →
      ∃ p e, p ∈ modes ∧ p.detect E = .error e ∧
        modesDetect modes E = .error ("detecting " ++ p.name ++ ": " ++ e)) ∧
    (∀ (modes : Modes) (E : ModeExec),
      (∃ p ∈ modes, ∃ e, p.plan E (modesNames modes) = .error e) →
      ∃ p e, p ∈ modes ∧ p.plan E (modesNames modes) = .error e ∧
        modesPlan modes E = .error ("planning " ++ p.name ++ ": " ++ e)) :=
  ⟨modesDetect_err, fun modes E h => modesPlanGo_err E (modesNames modes) modes h⟩

/-- A provider whose `Detect` and `Plan` both fail, for witness registries. -/
def failingProvider : ModeProvider :=
  ⟨"bad", fun _ => .error "boom", fun _ _ => .error "kaboom"⟩

/-- A provider whose `Detect` and `Plan` both succeed, for witness registries. -/
def healthyProvider : ModeProvider :=
  ⟨"good", fun _ => .ok true, fun _ _ => .ok {}⟩

/-- Witness for C4 on a concrete two-provider registry with one failing
provider: both batch operations fail with the wrapped name and message. -/
theorem c4_registry_fail_fast_witness :
    (∃ p e, p ∈ [healthyProvider, failingProvider] ∧ p.detect noBinaryEnv = .error e ∧
      modesDetect [healthyProvider, failingProvider] noBinaryEnv =
        .error ("detecting " ++ p.name ++ ": " ++ e)) ∧
    (∃ p e, p ∈ [healthyProvider, failingProvider] ∧
      p.plan noBinaryEnv (modesNames [healthyProvider, failingProvider]) = .error e ∧
      modesPlan [healthyProvider, failingProvider] noBinaryEnv =
        .error ("planning " ++ p.name ++ ": " ++ e)) :=
  ⟨c4_registry_fail_fast.1 [healthyProvider, failingProvider] noBinaryEnv
      ⟨failingProvider, by simp, "boom", rfl⟩,
   c4_registry_fail_fast.2 [healthyProvider, failingProvider] noBinaryEnv
      ⟨failingProvider, by simp, "kaboom", rfl⟩⟩

/-! ## Claim C9: golangci-lint plan falls back to the default cache dir -/

/-- When no line matches the `dir:` pattern, the scan loop leaves the
hard-coded default. -/
theorem golangciScan_default (lines : List String)
    (h : ∀ l ∈ lines, goHasPre "dir:" (goToLower (goTrimSpace l)) = false) :
    golangciScan lines = golangCILintDefaultCacheDir := by
  induction lines with
  | nil => rfl
  | cons l ls ih =>
    have hl := h l (by simp)
    simp only [golangciScan, hl, Bool.false_eq_true, if_false]
    exact ih (fun x hx => h x (by simp [hx]))

/-- C9: when no line of the `golangci-lint cache status` output matches the
case-insensitive `dir:` pattern, `Plan` succeeds and returns the hard-coded
default cache path `~/.cache/golangci-lint` rather than an error. -/
theorem c9_golangci_default_fallback (E : ModeExec) (out : String)
    (hout : E.output ["golangci-lint", "cache", "status"] = .ok out)
    (h : ∀ l ∈ goScanLines out, goHasPre "dir:" (goToLower (goTrimSpace l)) = false) :
    golangciPlan E = .ok { mountPaths := [golangCILintDefaultCacheDir] } := by
  simp [golangciPlan, hout, golangciScan_default (goScanLines out) h]

/-- An environment whose only successful command output is a `golangci-lint
cache status` report with no `dir:` line. -/
def golangciNoDirEnv : ModeExec :=
  ⟨fun _ => .notFound, fun _ => .ok "Status: ok\nSize: 3MB", fun _ => .notFound,
   fun _ => .error "unused"⟩

/-- Witness for C9 on a concrete status output with no `dir:` line. -/
theorem c9_golangci_default_fallback_witness :
    golangciPlan golangciNoDirEnv = .ok { mountPaths := [golangCILintDefaultCacheDir] } :=
  c9_golangci_default_fallback golangciNoDirEnv "Status: ok\nSize: 3MB" rfl (by decide)

/-! ## Claim C3: stat before mutation, cache-hit flags, stat-error abort -/

/-- C3: for every path the orchestrator mounts (planned or manual), once the
path resolves, the very first executor call is the stat of the joined cache
path — so the stat precedes any mutation; a successful stat makes any
returned `Mounts` entry a cache hit, a not-found stat makes it a miss, and
any other stat error aborts the operation with an error. -/
theorem c3_stat_gates_mount (m : Mounter) (modeName path p : String)
    (hres : resolveHome m.home path = .ok p) :
    ((m.mountPath modeName path).2.head? =
        some (.stat (filepathJoin m.cacheRoot p))) ∧
    (m.exec.stat (filepathJoin m.cacheRoot p) = .ok →
      ∀ r tr, m.mountPath modeName path = (.ok r, tr) → r.cacheHit = true) ∧
    (m.exec.stat (filepathJoin m.cacheRoot p) = .notFound →
      ∀ r tr, m.mountPath modeName path = (.ok r, tr) → r.cacheHit = false) ∧
    (∀ e, m.exec.stat (filepathJoin m.cacheRoot p) = .err e →
      (m.mountPath modeName path).1 =
        .error ("stat cache path " ++ goQuote (filepathJoin m.cacheRoot p) ++ ": " ++ e)) := by
  refine ⟨?_, ?_, ?_, ?_⟩
  · cases hstat : m.exec.stat (filepathJoin m.cacheRoot p) <;>
      cases hd : m.destructiveMode <;>
      simp [Mounter.mountPath, hres, hstat, hd] <;>
      cases hmnt : m.exec.mount (filepathJoin m.cacheRoot p) p <;>
      simp [hmnt]
  · intro hstat r tr hok
    cases hd : m.destructiveMode
    · simp [Mounter.mountPath, hres, hstat, hd] at hok
      simp [← hok.1]
    · rcases hmnt : m.exec.mount (filepathJoin m.cacheRoot p) p with _ | e <;>
        simp [Mounter.mountPath, hres, hstat, hd, hmnt] at hok
      simp [← hok.1]
  · intro hstat r tr hok
    cases hd : m.destructiveMode
    · simp [Mounter.mountPath, hres, hstat, hd] at hok
      simp [← hok.1]
    · rcases hmnt : m.exec.mount (filepathJoin m.cacheRoot p) p with _ | e <;>
        simp [Mounter.mountPath, hres, hstat, hd, hmnt] at hok
      simp [← hok.1]
  · intro e hstat
    simp [Mounter.mountPath, hres, hstat]

/-- A cache executor whose stats always succeed and whose mutations succeed. -/
def statOkExec : CacheExec :=
  ⟨fun _ => .ok, fun _ _ => none, fun _ => none, fun _ => none, fun _ => none, .error "du"⟩

/-- A cache executor whose stats fail with a non-not-found error. -/
def statErrExec : CacheExec :=
  ⟨fun _ => .err "disk on fire", fun _ _ => none, fun _ => none, fun _ => none,
   fun _ => none, .error "du"⟩

/-- A destructive mounter over `statOkExec` with cache root `/r`. -/
def mounterStatOk : Mounter := ⟨true, "/r", statOkExec, [], .ok "/h", "T"⟩

/-- A destructive mounter over `statErrExec` with cache root `/r`. -/
def mounterStatErr : Mounter := ⟨true, "/r", statErrExec, [], .ok "/h", "T"⟩

/-- Witness for C3 at the concrete path `x` under cache root `/r`: the first
call is the stat of `/r/x`; a successful stat yields a cache hit; a failing
stat aborts with the wrapped stat error. -/
theorem c3_stat_gates_mount_witness :
    (mounterStatOk.mountPath "go" "x").2.head? = some (.stat "/r/x") ∧
    (MountResult.mk "go" "/r/x" "x" true).cacheHit = true ∧
    (mounterStatErr.mountPath "go" "x").1 =
      .error "stat cache path \"/r/x\": disk on fire" :=
  ⟨(c3_stat_gates_mount mounterStatOk "go" "x" "x" rfl).1,
   (c3_stat_gates_mount mounterStatOk "go" "x" "x" rfl).2.1 rfl
     (MountResult.mk "go" "/r/x" "x" true) [.stat "/r/x", .mount "/r/x" "x"] rfl,
   by
    have h := (c3_stat_gates_mount mounterStatErr "go" "x" "x" rfl).2.2.2 "disk on fire" rfl
    simpa using h⟩

/-! ## Claim C8: the version gate (pnpm warning filtering, yarn command choice)

The key extensional property: below the version threshold, the warning marker
never occurs at the start of a line of the resolved cache directory. -/

/-- `splitNlL` never returns an empty list of pieces. -/
theorem splitNlL_ne_nil (l : List Char) : splitNlL l ≠ [] := by
  induction l with
  | nil => simp [splitNlL]
  | cons c t ih =>
    simp only [splitNlL]
    by_cases hc : c = '\n'
    · simp [hc]
    · simp only [hc, if_false]
      cases h : splitNlL t with
      | nil => simp
      | cons a as => simp

/-- No piece produced by `splitNlL` contains the separator. -/
theorem splitNlL_no_nl (l : List Char) : ∀ p ∈ splitNlL l, '\n' ∉ p := by
  induction l with
  | nil =>
    intro p hp
    simp [splitNlL] at hp
    simp [hp]
  | cons c t ih =>
    intro p hp
    simp only [splitNlL] at hp
    by_cases hc : c = '\n'
    · simp only [hc, if_true, List.mem_cons] at hp
      rcases hp with h | h
      · simp [h]
      · exact ih p h
    · simp only [hc, if_false] at hp
      cases h : splitNlL t with
      | nil => exact absurd h (splitNlL_ne_nil t)
      | cons a as =>
        rw [h] at hp
        simp only [List.mem_cons] at hp
        rcases hp with h1 | h1
        · subst h1
          intro hmem
          rcases List.mem_cons.mp hmem with h2 | h2
          · exact hc h2.symm
          · exact ih a (by simp [h]) h2
        · exact ih p (by simp [h, h1])

/-- "No warning-marked line": the pnpm warning marker does not occur at the
start of the character list, nor immediately after a newline. -/
def noWarnL (l : List Char) : Prop :=
  ∀ a b, l = a ++ pnpmWarningMark.data ++ b → a ≠ [] ∧ a.getLast? ≠ some '\n'

/-- `noWarnLines s`: `s` contains no line that starts with the pnpm warning
marker (the marker occurs neither at the start of `s` nor right after a
newline). -/
def noWarnLines (s : String) : Prop := noWarnL s.data

/-- `List.isPrefixOf` as an existential append equation. -/
theorem isPrefixOfE : ∀ (p s : List Char), p.isPrefixOf s = true ↔ ∃ t, p ++ t = s := by
  intro p
  induction p with
  | nil => intro s; simp [List.isPrefixOf]
  | cons a as ih =>
    intro s
    cases s with
    | nil => simp [List.isPrefixOf]
    | cons b bs =>
      simp only [List.isPrefixOf, Bool.and_eq_true, beq_iff_eq, List.cons_append,
        List.cons.injEq]
      rw [ih bs]
      constructor
      · rintro ⟨rfl, t, rfl⟩
        exact ⟨t, rfl, rfl⟩
      · rintro ⟨t, rfl, rfl⟩
        exact ⟨rfl, t, rfl⟩

/-- A list's last element is a member. -/
theorem memOfGetLast (l : List Char) (x : Char) (h : l.getLast? = some x) : x ∈ l := by
  induction l with
  | nil => cases h
  | cons a t ih =>
    cases t with
    | nil =>
      simp only [List.getLast?_singleton, Option.some.injEq] at h
      simp [h]
    | cons b t' =>
      rw [List.getLast?_cons_cons] at h
      exact List.mem_cons_of_mem a (ih h)

/-- The last element of an append with a nonempty right part. -/
theorem getLastAppend (xs ys : List Char) (h : ys ≠ []) :
    (xs ++ ys).getLast? = ys.getLast? := by
  induction xs with
  | nil => rfl
  | cons a t ih =>
    cases hys : ys with
    | nil => exact absurd hys h
    | cons b t' =>
      subst hys
      cases ht : t ++ b :: t' with
      | nil => simp at ht
      | cons c cs =>
        rw [List.cons_append, ht, List.getLast?_cons_cons, ← ht, ih]

/-- Joining newline-free pieces, none of which starts with the warning marker,
yields a character list with no warning-marked line. -/
theorem joinNl_noWarn (LS : List (List Char))
    (h : ∀ p ∈ LS, '\n' ∉ p ∧ pnpmWarningMark.data.isPrefixOf p = false) :
    noWarnL (joinNlL LS) := by
  induction LS with
  | nil =>
    intro a b hab
    simp only [joinNlL] at hab
    have := List.append_eq_nil.mp hab.symm
    have h2 := List.append_eq_nil.mp this.1
    exact absurd h2.2 (by decide)
  | cons p ps ih =>
    cases ps with
    | nil =>
      intro a b hab
      simp only [joinNlL] at hab
      have hp := h p (by simp)
      constructor
      · rintro rfl
        simp only [List.nil_append] at hab
        have : pnpmWarningMark.data.isPrefixOf p = true :=
          (isPrefixOfE _ _).mpr ⟨b, hab.symm⟩
        rw [hp.2] at this
        cases this
      · intro hlast
        have hmem : '\n' ∈ a := memOfGetLast a '\n' hlast
        have : '\n' ∈ p := by
          rw [hab]
          exact List.mem_append_left _ (List.mem_append_left _ hmem)
        exact hp.1 this
    | cons q qs =>
      intro a b hab
      have hab' : a ++ (pnpmWarningMark.data ++ b) = p ++ ('\n' :: joinNlL (q :: qs)) := by
        rw [← List.append_assoc, ← hab]
        rfl
      have hp := h p (by simp)
      rcases List.append_eq_append_iff.mp hab' with ⟨a', hp', hw⟩ | ⟨c', ha', hc⟩
      · rcases List.append_eq_append_iff.mp hw with ⟨w', hw1, hw2⟩ | ⟨u, hu1, hu2⟩
        · constructor
          · rintro rfl
            simp only [List.nil_append] at hp'
            have : pnpmWarningMark.data.isPrefixOf p = true :=
              (isPrefixOfE _ _).mpr ⟨w', by rw [hp', hw1]⟩
            rw [hp.2] at this
            cases this
          · intro hlast
            have hmem : '\n' ∈ a := memOfGetLast a '\n' hlast
            have : '\n' ∈ p := by
              rw [hp']
              exact List.mem_append_left _ hmem
            exact hp.1 this
        · cases u with
          | nil =>
            simp only [List.append_nil] at hu1
            constructor
            · rintro rfl
              simp only [List.nil_append] at hp'
              have : pnpmWarningMark.data.isPrefixOf p = true :=
                (isPrefixOfE _ _).mpr ⟨[], by rw [List.append_nil, hp', hu1]⟩
              rw [hp.2] at this
              cases this
            · intro hlast
              have hmem : '\n' ∈ a := memOfGetLast a '\n' hlast
              have : '\n' ∈ p := by
                rw [hp']
                exact List.mem_append_left _ hmem
              exact hp.1 this
          | cons x u' =>
            exfalso
            have hx : '\n' = x := by
              have := hu2
              simp only [List.cons_append, List.cons.injEq] at this
              exact this.1
            have hmem : '\n' ∈ pnpmWarningMark.data := by
              rw [hu1, hx]
              exact List.mem_append_right _ (List.mem_cons_self x u')
            exact absurd hmem (by decide)
      · cases c' with
        | nil =>
          exfalso
          simp only [List.nil_append] at hc
          have hhead : (pnpmWarningMark.data ++ b).head? = some '\n' := by
            rw [← hc]
            rfl
          rw [List.head?_append_of_ne_nil _ (by decide)] at hhead
          exact absurd hhead (by decide)
        | cons y c'' =>
          have hy : '\n' = y ∧ joinNlL (q :: qs) = c'' ++ (pnpmWarningMark.data ++ b) := by
            have := hc
            simp only [List.cons_append, List.cons.injEq] at this
            exact this
          have hIH := ih (fun r hr => h r (by simp [hr])) c'' b
            (by rw [hy.2, List.append_assoc])
          constructor
          · rw [ha']
            rcases hy with ⟨rfl, _⟩
            simp
          · intro hlast
            rw [ha'] at hlast
            rcases hy with ⟨rfl, _⟩
            rw [getLastAppend p ('\n' :: c'') (by simp)] at hlast
            cases hcc : c'' with
            | nil => exact hIH.1 hcc
            | cons z zs =>
              rw [hcc] at hlast
              have : ('\n' :: z :: zs).getLast? = (z :: zs).getLast? :=
                List.getLast?_cons_cons
              rw [this] at hlast
              exact hIH.2 (by rw [hcc]; exact hlast)

/-- The head surviving `dropWhile` does not satisfy the dropped predicate. -/
theorem headDropWhileNot (p : Char → Bool) (l : List Char) :
    ∀ c, (l.dropWhile p).head? = some c → p c = false := by
  induction l with
  | nil => intro c h; cases h
  | cons a t ih =>
    intro c h
    rw [List.dropWhile_cons] at h
    by_cases hp : p a = true
    · rw [if_pos hp] at h
      exact ih c h
    · rw [if_neg hp] at h
      simp only [List.head?_cons, Option.some.injEq] at h
      rw [← h]
      simpa using hp

/-- The de-spaced head of a list splits as the trimmed list plus trailing
white space. -/
theorem dropWhileWsDecomp (l : List Char) :
    l.dropWhile goIsSpace =
      trimL l ++ ((l.dropWhile goIsSpace).reverse.takeWhile goIsSpace).reverse := by
  have e1 : (l.dropWhile goIsSpace).reverse.takeWhile goIsSpace ++
      (l.dropWhile goIsSpace).reverse.dropWhile goIsSpace =
      (l.dropWhile goIsSpace).reverse :=
    List.takeWhile_append_dropWhile goIsSpace (l.dropWhile goIsSpace).reverse
  have e2 := congrArg List.reverse e1
  rw [List.reverse_append, List.reverse_reverse] at e2
  exact e2.symm

/-- Every trimmed list splits its input as white space, itself, white space. -/
theorem trimLDecomp (l : List Char) :
    l = l.takeWhile goIsSpace ++
      (trimL l ++ ((l.dropWhile goIsSpace).reverse.takeWhile goIsSpace).reverse) := by
  conv_lhs => rw [← List.takeWhile_append_dropWhile goIsSpace l, dropWhileWsDecomp l]

/-- Trimming preserves the absence of warning-marked lines: the trimmed list
starts with a non-space character (the marker starts with a space-class
character), inner newlines are untouched, and the marker cannot newly appear
at a line start. -/
theorem trim_noWarn (l : List Char) (h : noWarnL l) : noWarnL (trimL l) := by
  intro a b hab
  have hl : l = (l.takeWhile goIsSpace ++ a) ++ pnpmWarningMark.data ++
      (b ++ ((l.dropWhile goIsSpace).reverse.takeWhile goIsSpace).reverse) := by
    conv_lhs => rw [trimLDecomp l, hab]
    simp [List.append_assoc]
  obtain ⟨hne, hlast⟩ := h _ _ hl
  have hane : a ≠ [] := by
    rintro rfl
    simp only [List.nil_append] at hab
    have htrim_ne : trimL l ≠ [] := by
      rw [hab]
      simp only [ne_eq, List.append_eq_nil, not_and]
      intro hw
      exact absurd hw (by decide)
    have hhead : (trimL l).head? = some '\u2009' := by
      rw [hab, List.head?_append_of_ne_nil _ (by decide)]
      rfl
    have hdWhead : (l.dropWhile goIsSpace).head? = some '\u2009' := by
      rw [dropWhileWsDecomp l, List.head?_append_of_ne_nil _ htrim_ne]
      exact hhead
    have := headDropWhileNot goIsSpace l '\u2009' hdWhead
    exact absurd this (by decide)
  refine ⟨hane, ?_⟩
  intro hl2
  apply hlast
  rw [getLastAppend _ a hane]
  exact hl2

/-- Filtering the warning-marked lines commutes with the string wrappers. -/
theorem filteredMapData (ls : List (List Char)) :
    (((ls.map String.mk).filter (fun line => !goHasPre pnpmWarningMark line)).map
        String.data) =
      ls.filter (fun q => !pnpmWarningMark.data.isPrefixOf q) := by
  induction ls with
  | nil => rfl
  | cons p ps ih =>
    have hmk : (String.mk p).data = p := rfl
    simp only [List.map_cons, List.filter_cons, goHasPre, hmk] at ih ⊢
    by_cases hp : pnpmWarningMark.data.isPrefixOf p = true
    · simp [hp, ih]
    · simp only [Bool.not_eq_true] at hp
      simp [hp, ih]

/-- The lines of a pnpm store-path output, after dropping warning-marked ones,
join to a character list with no warning-marked line. -/
theorem filteredJoin_noWarn (out : String) :
    noWarnL (joinNlL (((goSplitNl out).filter
      (fun line => !goHasPre pnpmWarningMark line)).map String.data)) := by
  rw [goSplitNl, filteredMapData]
  apply joinNl_noWarn
  intro p hp
  rw [List.mem_filter] at hp
  refine ⟨splitNlL_no_nl out.data p hp.1, ?_⟩
  have := hp.2
  simpa using this

/-- C8: the version-gated behaviour.  For pnpm: below the `v9.7.0` threshold
the resolved cache directory is the trim of the join of exactly the
non-warning lines of the store-path output, and contains no warning-marked
line at all; at or above the threshold no line filtering is applied.  For
yarn: the `--version` answer selects exactly one of the two mutually
exclusive cache-directory commands. -/
theorem c8_version_gate :
    (∀ (E : ModeExec) (vout out : String) (res : PlanResult),
      E.output ["pnpm", "--version"] = .ok vout →
      E.output ["pnpm", "store", "path", "--loglevel", "error"] = .ok out →
      semverCompare (pnpmVersion vout) pnpmWarningFixVersion < 0 →
      pnpmPlan E = .ok res →
      res.mountPaths = [goTrimSpace (goJoinNl ((goSplitNl out).filter
        (fun line => !goHasPre pnpmWarningMark line)))] ∧
      ∀ dir ∈ res.mountPaths, noWarnLines dir) ∧
    (∀ (E : ModeExec) (vout out : String) (res : PlanResult),
      E.output ["pnpm", "--version"] = .ok vout →
      E.output ["pnpm", "store", "path", "--loglevel", "error"] = .ok out →
      ¬ semverCompare (pnpmVersion vout) pnpmWarningFixVersion < 0 →
      pnpmPlan E = .ok res →
      res.mountPaths = [goTrimSpace out]) ∧
    (∀ (E : ModeExec) (vout : String),
      E.output yarnVersionCmd = .ok vout →
      (goHasPre "1." (goTrimSpace vout) = true →
        (yarnPlan E).2 = [yarnVersionCmd, yarnV1CacheCmd] ∧
        yarnV2CacheCmd ∉ (yarnPlan E).2) ∧
      (goHasPre "1." (goTrimSpace vout) = false →
        (yarnPlan E).2 = [yarnVersionCmd, yarnV2CacheCmd] ∧
        yarnV1CacheCmd ∉ (yarnPlan E).2)) := by
  refine ⟨?_, ?_, ?_⟩
  · intro E vout out res hv hs hcmp hres
    rw [pnpmPlan, hv, hs] at hres
    simp only [if_pos hcmp] at hres
    by_cases hcd : goTrimSpace (goJoinNl ((goSplitNl out).filter
        (fun line => !goHasPre pnpmWarningMark line))) = ""
    · rw [if_pos hcd] at hres
      cases hres
    · rw [if_neg hcd] at hres
      have hr := Except.ok.inj hres
      constructor
      · rw [← hr]
      · intro dir hdir
        rw [← hr] at hdir
        simp only [List.mem_singleton] at hdir
        subst hdir
        show noWarnL (goTrimSpace (goJoinNl _)).data
        have : (goTrimSpace (goJoinNl ((goSplitNl out).filter
            (fun line => !goHasPre pnpmWarningMark line)))).data =
            trimL (joinNlL (((goSplitNl out).filter
              (fun line => !goHasPre pnpmWarningMark line)).map String.data)) := rfl
        rw [this]
        exact trim_noWarn _ (filteredJoin_noWarn out)
  · intro E vout out res hv hs hcmp hres
    rw [pnpmPlan, hv, hs] at hres
    simp only [if_neg hcmp] at hres
    by_cases hcd : goTrimSpace out = ""
    · rw [if_pos hcd] at hres
      cases hres
    · rw [if_neg hcd] at hres
      have hr := Except.ok.inj hres
      rw [← hr]
  · intro E vout hv
    constructor
    · intro h1
      have htr : (yarnPlan E).2 = [yarnVersionCmd, yarnV1CacheCmd] := by
        rw [yarnPlan, hv]
        simp only [h1, if_true]
        cases hout : E.output yarnV1CacheCmd with
        | error e => rfl
        | ok o => by_cases ho : goTrimSpace o = "" <;> simp [ho]
      exact ⟨htr, by rw [htr]; decide⟩
    · intro h1
      have htr : (yarnPlan E).2 = [yarnVersionCmd, yarnV2CacheCmd] := by
        rw [yarnPlan, hv]
        simp only [h1, Bool.false_eq_true, if_false]
        cases hout : E.output yarnV2CacheCmd with
        | error e => rfl
        | ok o => by_cases ho : goTrimSpace o = "" <;> simp [ho]
      exact ⟨htr, by rw [htr]; decide⟩

/-- A concrete pnpm store-path output polluted by a warning-marked line. -/
def pnpmStoreOut : String := " WARN deprecated\n/store/path"

/-- An environment reporting pnpm 9.6.0 (below the warning-fix threshold). -/
def pnpmOldEnv : ModeExec :=
  ⟨fun _ => .notFound,
   fun cmd =>
     if cmd = ["pnpm", "--version"] then .ok "9.6.0"
     else if cmd = ["pnpm", "store", "path", "--loglevel", "error"] then .ok pnpmStoreOut
     else .error "unused",
   fun _ => .notFound, fun _ => .error "unused"⟩

/-- An environment reporting pnpm 9.8.0 (at/above the warning-fix threshold). -/
def pnpmNewEnv : ModeExec :=
  ⟨fun _ => .notFound,
   fun cmd =>
     if cmd = ["pnpm", "--version"] then .ok "9.8.0"
     else if cmd = ["pnpm", "store", "path", "--loglevel", "error"] then .ok pnpmStoreOut
     else .error "unused",
   fun _ => .notFound, fun _ => .error "unused"⟩

/-- The pnpm plan result below the threshold: the warning line is gone. -/
def pnpmOldRes : PlanResult :=
  { addEnvs := [("npm_config_package_import_method", "copy")], mountPaths := ["/store/path"] }

/-- The pnpm plan result at/above the threshold: only edge trimming applied. -/
def pnpmNewRes : PlanResult :=
  { addEnvs := [("npm_config_package_import_method", "copy")],
    mountPaths := ["WARN deprecated\n/store/path"] }

/-- An environment reporting yarn 1.22.0. -/
def yarnV1Env : ModeExec :=
  ⟨fun _ => .notFound,
   fun cmd => if cmd = yarnVersionCmd then .ok "1.22.0\n" else .ok "/yc",
   fun _ => .notFound, fun _ => .error "unused"⟩

/-- An environment reporting yarn 4.1.0. -/
def yarnBerryEnv : ModeExec :=
  ⟨fun _ => .notFound,
   fun cmd => if cmd = yarnVersionCmd then .ok "4.1.0\n" else .ok "/yc",
   fun _ => .notFound, fun _ => .error "unused"⟩

/-- Witness for C8 at concrete versions 9.6.0 / 9.8.0 (pnpm) and 1.22.0 /
4.1.0 (yarn). -/
theorem c8_version_gate_witness :
    (semverCompare (pnpmVersion "9.6.0") pnpmWarningFixVersion < 0 ∧
      pnpmPlan pnpmOldEnv = .ok pnpmOldRes ∧
      ∀ dir ∈ pnpmOldRes.mountPaths, noWarnLines dir) ∧
    (¬ semverCompare (pnpmVersion "9.8.0") pnpmWarningFixVersion < 0 ∧
      pnpmPlan pnpmNewEnv = .ok pnpmNewRes ∧
      pnpmNewRes.mountPaths = [goTrimSpace pnpmStoreOut]) ∧
    ((yarnPlan yarnV1Env).2 = [yarnVersionCmd, yarnV1CacheCmd] ∧
      yarnV2CacheCmd ∉ (yarnPlan yarnV1Env).2) ∧
    ((yarnPlan yarnBerryEnv).2 = [yarnVersionCmd, yarnV2CacheCmd] ∧
      yarnV1CacheCmd ∉ (yarnPlan yarnBerryEnv).2) :=
  ⟨⟨by decide, rfl,
    (c8_version_gate.1 pnpmOldEnv "9.6.0" pnpmStoreOut pnpmOldRes rfl rfl (by decide) rfl).2⟩,
   ⟨by decide, rfl,
    c8_version_gate.2.1 pnpmNewEnv "9.8.0" pnpmStoreOut pnpmNewRes rfl rfl (by decide) rfl⟩,
   (c8_version_gate.2.2 yarnV1Env "1.22.0\n" rfl).1 (by decide),
   (c8_version_gate.2.2 yarnBerryEnv "4.1.0\n" rfl).2 (by decide)⟩

/-! ## Claim C1: dry-run parity

The destructive and non-destructive runs are compared by relating a mounter to
its *dry twin* (same configuration, destructive flag off) step by step. -/

/-- The dry twin of a mounter: identical, destructive mode off. -/
def Mounter.asDry (m : Mounter) : Mounter := { m with destructiveMode := false }

/-- The reported response of a dry run differs from the destructive one only
in the echoed `destructive_mode` flag. -/
def dryOf (r : MountResponse) : MountResponse :=
  { r with output.destructiveMode := false }

/-- The calls the dry-run contract forbids: `Mount`, `RemoveAll`, `WriteFile`. -/
def isMutation : ExecCall → Bool
  | .mount _ _ => true
  | .removeAll _ => true
  | .writeFile _ => true
  | _ => false

/-- A dry mounter is its own dry twin. -/
theorem asDry_self (m : Mounter) (h : m.destructiveMode = false) : m.asDry = m := by
  cases m
  simp only at h
  simp [Mounter.asDry, h]

/-- The dry twin changes only the destructive flag. -/
theorem asDry_modes (m : Mounter) : m.asDry.modes = m.modes := rfl

/-- The dry twin keeps the cache root. -/
theorem asDry_cacheRoot (m : Mounter) : m.asDry.cacheRoot = m.cacheRoot := rfl

/-- The dry twin keeps the executor. -/
theorem asDry_exec (m : Mounter) : m.asDry.exec = m.exec := rfl

/-- The dry twin's flag is off. -/
theorem asDry_destr (m : Mounter) : m.asDry.destructiveMode = false := rfl

/-- `mountPath` under the dry twin: same result value as a successful
destructive call, trace reduced to the stat. -/
theorem mountPath_dry (m : Mounter) (n p : String) (r : MountResult) (tr : List ExecCall)
    (h : m.mountPath n p = (.ok r, tr)) :
    ∃ q, m.asDry.mountPath n p = (.ok r, [.stat q]) := by
  cases hres : resolveHome m.home p with
  | error e => simp [Mounter.mountPath, hres] at h
  | ok pp =>
    refine ⟨filepathJoin m.cacheRoot pp, ?_⟩
    cases hstat : m.exec.stat (filepathJoin m.cacheRoot pp) with
    | err e => simp [Mounter.mountPath, hres, hstat] at h
    | ok =>
      cases hd : m.destructiveMode
      · simp [Mounter.mountPath, hres, hstat, hd] at h
        simp [Mounter.mountPath, Mounter.asDry, hres, hstat, ← h.1]
      · cases hm : m.exec.mount (filepathJoin m.cacheRoot pp) pp with
        | some e => simp [Mounter.mountPath, hres, hstat, hd, hm] at h
        | none =>
          simp [Mounter.mountPath, hres, hstat, hd, hm] at h
          simp [Mounter.mountPath, Mounter.asDry, hres, hstat, ← h.1]
    | notFound =>
      cases hd : m.destructiveMode
      · simp [Mounter.mountPath, hres, hstat, hd] at h
        simp [Mounter.mountPath, Mounter.asDry, hres, hstat, ← h.1]
      · cases hm : m.exec.mount (filepathJoin m.cacheRoot pp) pp with
        | some e => simp [Mounter.mountPath, hres, hstat, hd, hm] at h
        | none =>
          simp [Mounter.mountPath, hres, hstat, hd, hm] at h
          simp [Mounter.mountPath, Mounter.asDry, hres, hstat, ← h.1]

/-- `removePath` under the dry twin: same result value as a successful
destructive call, no executor calls. -/
theorem removePath_dry (m : Mounter) (p : String) (res res' : MountResponse)
    (tr : List ExecCall) (h : m.removePath p res = (.ok res', tr)) :
    m.asDry.removePath p (dryOf res) = (.ok (dryOf res'), []) := by
  cases hd : m.destructiveMode
  · simp [Mounter.removePath, hd] at h
    simp [Mounter.removePath, Mounter.asDry, ← h.1, dryOf]
  · cases hr : m.exec.removeAll p with
    | some e => simp [Mounter.removePath, hd, hr] at h
    | none =>
      simp [Mounter.removePath, hd, hr] at h
      simp [Mounter.removePath, Mounter.asDry, ← h.1, dryOf]

/-- The plan-path mount loop under the dry twin: same results, stat-only
trace. -/
theorem mountPlanPaths_dry (m : Mounter) (n : String) (paths : List String) :
    ∀ (res res' : MountResponse) (tr : List ExecCall),
      m.mountPlanPaths n paths res = (.ok res', tr) →
      ∃ tr', m.asDry.mountPlanPaths n paths (dryOf res) = (.ok (dryOf res'), tr') := by
  induction paths with
  | nil =>
    intro res res' tr h
    simp only [Mounter.mountPlanPaths, Prod.mk.injEq] at h
    obtain ⟨h1, _⟩ := h
    cases h1
    exact ⟨[], by simp [Mounter.mountPlanPaths]⟩
  | cons p ps ih =>
    intro res res' tr h
    rcases hmp : m.mountPath n p with ⟨e | mnt, tr1⟩
    · simp [Mounter.mountPlanPaths, hmp] at h
    · rcases hrec : m.mountPlanPaths n ps
        { res with output.mounts := res.output.mounts ++ [mnt] } with ⟨r2, tr2⟩
      simp only [Mounter.mountPlanPaths, hmp, hrec, Prod.mk.injEq] at h
      obtain ⟨h1, _⟩ := h
      cases h1
      obtain ⟨q, hdry⟩ := mountPath_dry m n p mnt tr1 hmp
      obtain ⟨tr', hdryrec⟩ := ih _ res' tr2 hrec
      refine ⟨[.stat q] ++ tr', ?_⟩
      have hcomm : dryOf { res with output.mounts := res.output.mounts ++ [mnt] } =
          { dryOf res with
            output.mounts := (dryOf res).output.mounts ++ [mnt] } := by
        simp [dryOf]
      rw [hcomm] at hdryrec
      simp [Mounter.mountPlanPaths, hdry, hdryrec]

/-- The removal loop under the dry twin: same results, no executor calls. -/
theorem removePlanPaths_dry (m : Mounter) (paths : List String) :
    ∀ (res res' : MountResponse) (tr : List ExecCall),
      m.removePlanPaths paths res = (.ok res', tr) →
      m.asDry.removePlanPaths paths (dryOf res) = (.ok (dryOf res'), []) := by
  induction paths with
  | nil =>
    intro res res' tr h
    simp only [Mounter.removePlanPaths, Prod.mk.injEq] at h
    obtain ⟨h1, _⟩ := h
    cases h1
    simp [Mounter.removePlanPaths]
  | cons p ps ih =>
    intro res res' tr h
    rcases hrp : m.removePath p res with ⟨e | res1, tr1⟩
    · simp [Mounter.removePlanPaths, hrp] at h
    · rcases hrec : m.removePlanPaths ps res1 with ⟨r2, tr2⟩
      simp only [Mounter.removePlanPaths, hrp, hrec, Prod.mk.injEq] at h
      obtain ⟨h1, _⟩ := h
      cases h1
      have hdry := removePath_dry m p res res1 tr1 hrp
      have hdryrec := ih res1 res' tr2 hrec
      simp [Mounter.removePlanPaths, hdry, hdryrec]

/-- The env-aggregation loop commutes with `dryOf`. -/
theorem addEnvsLoop_dry (envs : List (String × String)) :
    ∀ res : MountResponse, addEnvsLoop envs (dryOf res) = dryOf (addEnvsLoop envs res) := by
  induction envs with
  | nil => intro res; rfl
  | cons kv rest ih =>
    intro res
    simp only [addEnvsLoop, List.foldl_cons] at *
    have hcomm : { dryOf res with
        output.addEnvs := mapSet (dryOf res).output.addEnvs kv.1 kv.2 } =
        dryOf { res with output.addEnvs := mapSet res.output.addEnvs kv.1 kv.2 } := by
      simp [dryOf]
    rw [hcomm]
    exact ih _

/-- One plan entry under the dry twin: same results, stat-only trace. -/
theorem mountPlanEntry_dry (m : Mounter) (entry : String × PlanResult)
    (res res' : MountResponse) (tr : List ExecCall)
    (h : m.mountPlanEntry entry res = (.ok res', tr)) :
    ∃ tr', m.asDry.mountPlanEntry entry (dryOf res) = (.ok (dryOf res'), tr') := by
  rcases hmp : m.mountPlanPaths entry.1 entry.2.mountPaths res with ⟨e | res1, tr1⟩
  · simp [Mounter.mountPlanEntry, hmp] at h
  · rcases hrp : m.removePlanPaths entry.2.removePaths (addEnvsLoop entry.2.addEnvs res1)
      with ⟨r2, tr2⟩
    simp only [Mounter.mountPlanEntry, hmp, hrp, Prod.mk.injEq] at h
    obtain ⟨h1, _⟩ := h
    cases h1
    obtain ⟨tr', hdry1⟩ := mountPlanPaths_dry m entry.1 entry.2.mountPaths res res1 tr1 hmp
    have hdry2 := removePlanPaths_dry m entry.2.removePaths _ res' tr2 hrp
    rw [← addEnvsLoop_dry entry.2.addEnvs res1] at hdry2
    refine ⟨tr' ++ [], ?_⟩
    simp [Mounter.mountPlanEntry, hdry1, hdry2]

/-- The whole plan loop under the dry twin: same results, no mutations. -/
theorem mountPlans_dry (m : Mounter) (plans : List (String × PlanResult)) :
    ∀ (res res' : MountResponse) (tr : List ExecCall),
      m.mountPlans plans res = (.ok res', tr) →
      ∃ tr', m.asDry.mountPlans plans (dryOf res) = (.ok (dryOf res'), tr') := by
  induction plans with
  | nil =>
    intro res res' tr h
    simp only [Mounter.mountPlans, Prod.mk.injEq] at h
    obtain ⟨h1, _⟩ := h
    cases h1
    exact ⟨[], by simp [Mounter.mountPlans]⟩
  | cons entry rest ih =>
    intro res res' tr h
    rcases hme : m.mountPlanEntry entry res with ⟨e | res1, tr1⟩
    · simp [Mounter.mountPlans, hme] at h
    · rcases hrec : m.mountPlans rest res1 with ⟨r2, tr2⟩
      simp only [Mounter.mountPlans, hme, hrec, Prod.mk.injEq] at h
      obtain ⟨h1, _⟩ := h
      cases h1
      obtain ⟨tr1', hdry1⟩ := mountPlanEntry_dry m entry res res1 tr1 hme
      obtain ⟨tr2', hdry2⟩ := ih res1 res' tr2 hrec
      exact ⟨tr1' ++ tr2', by simp [Mounter.mountPlans, hdry1, hdry2]⟩

/-- `mountModes` under the dry twin: same results. -/
theorem mountModes_dry (m : Mounter) (menv : ModeExec) (modes : Modes)
    (res res' : MountResponse) (tr : List ExecCall)
    (h : m.mountModes menv modes res = (.ok res', tr)) :
    ∃ tr', m.asDry.mountModes menv modes (dryOf res) = (.ok (dryOf res'), tr') := by
  cases hplan : modesPlan modes menv with
  | error e => simp [Mounter.mountModes, hplan] at h
  | ok plans =>
    simp only [Mounter.mountModes, hplan] at h ⊢
    have hcomm : { dryOf res with input.modes := modesNames modes } =
        dryOf { res with input.modes := modesNames modes } := by
      simp [dryOf]
    rw [hcomm]
    exact mountPlans_dry m plans _ res' tr h

/-- The manual-path loop under the dry twin: same results. -/
theorem mountManualLoop_dry (m : Mounter) (paths : List String) :
    ∀ (res res' : MountResponse) (tr : List ExecCall),
      m.mountManualLoop paths res = (.ok res', tr) →
      ∃ tr', m.asDry.mountManualLoop paths (dryOf res) = (.ok (dryOf res'), tr') := by
  induction paths with
  | nil =>
    intro res res' tr h
    simp only [Mounter.mountManualLoop, Prod.mk.injEq] at h
    obtain ⟨h1, _⟩ := h
    cases h1
    exact ⟨[], by simp [Mounter.mountManualLoop]⟩
  | cons p ps ih =>
    intro res res' tr h
    rcases hmp : m.mountPath "" p with ⟨e | mnt, tr1⟩
    · simp [Mounter.mountManualLoop, hmp] at h
    · rcases hrec : m.mountManualLoop ps
        { res with output.mounts := res.output.mounts ++ [mnt] } with ⟨r2, tr2⟩
      simp only [Mounter.mountManualLoop, hmp, hrec, Prod.mk.injEq] at h
      obtain ⟨h1, _⟩ := h
      cases h1
      obtain ⟨q, hdry⟩ := mountPath_dry m "" p mnt tr1 hmp
      obtain ⟨tr', hdryrec⟩ := ih _ res' tr2 hrec
      refine ⟨[.stat q] ++ tr', ?_⟩
      have hcomm : dryOf { res with output.mounts := res.output.mounts ++ [mnt] } =
          { dryOf res with
            output.mounts := (dryOf res).output.mounts ++ [mnt] } := by
        simp [dryOf]
      rw [hcomm] at hdryrec
      simp [Mounter.mountManualLoop, hdry, hdryrec]

/-- `mountPaths` (manual) under the dry twin: same results. -/
theorem mountManualPaths_dry (m : Mounter) (paths : List String)
    (res res' : MountResponse) (tr : List ExecCall)
    (h : m.mountManualPaths paths res = (.ok res', tr)) :
    ∃ tr', m.asDry.mountManualPaths paths (dryOf res) = (.ok (dryOf res'), tr') := by
  simp only [Mounter.mountManualPaths] at h ⊢
  have hcomm : { dryOf res with input.paths := (dryOf res).input.paths ++ paths } =
      dryOf { res with input.paths := res.input.paths ++ paths } := by
    simp [dryOf]
  rw [hcomm]
  exact mountManualLoop_dry m paths _ res' tr h

/-- `writeMetadata` under the dry twin is a silent no-op. -/
theorem writeMetadata_dry (m : Mounter) (res : MountResponse) :
    m.asDry.writeMetadata res = (.ok (), []) := rfl

/-- A successful destructive `Mount` and the dry twin's `Mount` agree on the
whole reported response, up to the echoed destructive flag. -/
theorem mount_dry (m : Mounter) (menv : ModeExec) (req : MountRequest)
    (res : MountResponse) (tr : List ExecCall)
    (h : m.mount menv req = (.ok res, tr)) :
    ∃ tr', m.asDry.mount menv req = (.ok (dryOf res), tr') := by
  cases hen : req.enabledModes m.modes menv with
  | error e => simp [Mounter.mount, hen] at h
  | ok modes =>
    rcases hmm : m.mountModes menv modes { output := { destructiveMode := m.destructiveMode } }
      with ⟨e1 | res1, tr1⟩
    · simp [Mounter.mount, hen, hmm] at h
    · rcases hman : m.mountManualPaths req.manualPaths res1 with ⟨e2 | res2, tr2⟩
      · simp [Mounter.mount, hen, hmm, hman] at h
      · rcases hwm : m.writeMetadata res2 with ⟨e3 | u, tr3⟩
        · simp [Mounter.mount, hen, hmm, hman, hwm] at h
        · obtain ⟨tr1', hdry1⟩ := mountModes_dry m menv modes _ res1 tr1 hmm
          obtain ⟨tr2', hdry2⟩ := mountManualPaths_dry m req.manualPaths res1 res2 tr2 hman
          have hzero : dryOf { output := { destructiveMode := m.destructiveMode } } =
              ({ output := { destructiveMode := false } } : MountResponse) := by
            simp [dryOf]
          rw [hzero] at hdry1
          cases hdu : m.exec.diskUsage with
          | error e =>
            simp only [Mounter.mount, hen, hmm, hman, hwm, hdu, Prod.mk.injEq] at h
            obtain ⟨h1, _⟩ := h
            cases h1
            refine ⟨tr1' ++ tr2' ++ [] ++ [.diskUsage m.cacheRoot], ?_⟩
            simp [Mounter.mount, asDry_modes, asDry_cacheRoot, asDry_exec, asDry_destr,
              hen, hdry1, hdry2, writeMetadata_dry, hdu]
          | ok usage =>
            simp only [Mounter.mount, hen, hmm, hman, hwm, hdu, Prod.mk.injEq] at h
            obtain ⟨h1, _⟩ := h
            cases h1
            refine ⟨tr1' ++ tr2' ++ [] ++ [.diskUsage m.cacheRoot], ?_⟩
            have hcomm : { dryOf res2 with output.diskUsage := some usage } =
                dryOf { res2 with output.diskUsage := some usage } := by
              simp [dryOf]
            simp [Mounter.mount, asDry_modes, asDry_cacheRoot, asDry_exec, asDry_destr,
              hen, hdry1, hdry2, writeMetadata_dry, hdu, hcomm]

/-- A dry `mountPath` only ever stats. -/
theorem mountPath_dry_calls (m : Mounter) (n p : String) :
    ∀ c ∈ (m.asDry.mountPath n p).2, isMutation c = false := by
  intro c hc
  cases hres : resolveHome m.home p with
  | error e => simp [Mounter.mountPath, Mounter.asDry, hres] at hc
  | ok pp =>
    cases hstat : m.exec.stat (filepathJoin m.cacheRoot pp) with
    | err e =>
      simp [Mounter.mountPath, Mounter.asDry, hres, hstat] at hc
      simp [hc, isMutation]
    | ok =>
      simp [Mounter.mountPath, Mounter.asDry, hres, hstat] at hc
      simp [hc, isMutation]
    | notFound =>
      simp [Mounter.mountPath, Mounter.asDry, hres, hstat] at hc
      simp [hc, isMutation]

/-- A dry `removePath` makes no executor calls. -/
theorem removePath_dry_trace (m : Mounter) (p : String) (res : MountResponse) :
    (m.asDry.removePath p res).2 = [] := rfl

/-- The dry plan-path loop only ever stats. -/
theorem mountPlanPaths_dry_calls (m : Mounter) (n : String) (paths : List String) :
    ∀ res, ∀ c ∈ (m.asDry.mountPlanPaths n paths res).2, isMutation c = false := by
  induction paths with
  | nil => intro res c hc; simp [Mounter.mountPlanPaths] at hc
  | cons p ps ih =>
    intro res c hc
    have hsub : ∀ c ∈ (m.asDry.mountPath n p).2, isMutation c = false :=
      mountPath_dry_calls m n p
    rcases hmp : m.asDry.mountPath n p with ⟨e | mnt, tr1⟩
    · rw [hmp] at hsub
      simp only [Mounter.mountPlanPaths, hmp] at hc
      exact hsub c hc
    · rw [hmp] at hsub
      rcases hrec : m.asDry.mountPlanPaths n ps
        { res with output.mounts := res.output.mounts ++ [mnt] } with ⟨r2, tr2⟩
      simp only [Mounter.mountPlanPaths, hmp, hrec, List.mem_append] at hc
      rcases hc with hc | hc
      · exact hsub c hc
      · have := ih { res with output.mounts := res.output.mounts ++ [mnt] } c
        rw [hrec] at this
        exact this hc

/-- The dry removal loop makes no executor calls. -/
theorem removePlanPaths_dry_trace (m : Mounter) (paths : List String) :
    ∀ res, (m.asDry.removePlanPaths paths res).2 = [] := by
  induction paths with
  | nil => intro res; rfl
  | cons p ps ih =>
    intro res
    rcases hrp : m.asDry.removePath p res with ⟨e | res1, tr1⟩
    · have := removePath_dry_trace m p res
      rw [hrp] at this
      simp only [Mounter.removePlanPaths, hrp]
      exact this
    · have h1 := removePath_dry_trace m p res
      rw [hrp] at h1
      rcases hrec : m.asDry.removePlanPaths ps res1 with ⟨r2, tr2⟩
      have h2 := ih res1
      rw [hrec] at h2
      simp only at h1 h2
      simp only [Mounter.removePlanPaths, hrp, hrec]
      simp [h1, h2]

/-- A dry plan entry only ever stats. -/
theorem mountPlanEntry_dry_calls (m : Mounter) (entry : String × PlanResult) :
    ∀ res, ∀ c ∈ (m.asDry.mountPlanEntry entry res).2, isMutation c = false := by
  intro res c hc
  have hsub := mountPlanPaths_dry_calls m entry.1 entry.2.mountPaths res
  rcases hmp : m.asDry.mountPlanPaths entry.1 entry.2.mountPaths res with ⟨e | res1, tr1⟩
  · rw [hmp] at hsub
    simp only [Mounter.mountPlanEntry, hmp] at hc
    exact hsub c hc
  · rw [hmp] at hsub
    rcases hrp : m.asDry.removePlanPaths entry.2.removePaths
      (addEnvsLoop entry.2.addEnvs res1) with ⟨r2, tr2⟩
    have h2 := removePlanPaths_dry_trace m entry.2.removePaths
      (addEnvsLoop entry.2.addEnvs res1)
    rw [hrp] at h2
    simp only at h2
    simp only [Mounter.mountPlanEntry, hmp, hrp, List.mem_append] at hc
    rcases hc with hc | hc
    · exact hsub c hc
    · rw [h2] at hc
      simp at hc

/-- The dry plan loop only ever stats. -/
theorem mountPlans_dry_calls (m : Mounter) (plans : List (String × PlanResult)) :
    ∀ res, ∀ c ∈ (m.asDry.mountPlans plans res).2, isMutation c = false := by
  induction plans with
  | nil => intro res c hc; simp [Mounter.mountPlans] at hc
  | cons entry rest ih =>
    intro res c hc
    have hsub := mountPlanEntry_dry_calls m entry res
    rcases hme : m.asDry.mountPlanEntry entry res with ⟨e | res1, tr1⟩
    · rw [hme] at hsub
      simp only [Mounter.mountPlans, hme] at hc
      exact hsub c hc
    · rw [hme] at hsub
      rcases hrec : m.asDry.mountPlans rest res1 with ⟨r2, tr2⟩
      simp only [Mounter.mountPlans, hme, hrec, List.mem_append] at hc
      rcases hc with hc | hc
      · exact hsub c hc
      · have := ih res1 c
        rw [hrec] at this
        exact this hc

/-- Dry `mountModes` only ever stats. -/
theorem mountModes_dry_calls (m : Mounter) (menv : ModeExec) (modes : Modes) :
    ∀ res, ∀ c ∈ (m.asDry.mountModes menv modes res).2, isMutation c = false := by
  intro res c hc
  cases hplan : modesPlan modes menv with
  | error e => simp [Mounter.mountModes, hplan] at hc
  | ok plans =>
    simp only [Mounter.mountModes, hplan] at hc
    have := mountPlans_dry_calls m plans
      { res with input.modes := modesNames modes } c
    exact this hc

/-- The dry manual loop only ever stats. -/
theorem mountManualLoop_dry_calls (m : Mounter) (paths : List String) :
    ∀ res, ∀ c ∈ (m.asDry.mountManualLoop paths res).2, isMutation c = false := by
  induction paths with
  | nil => intro res c hc; simp [Mounter.mountManualLoop] at hc
  | cons p ps ih =>
    intro res c hc
    have hsub := mountPath_dry_calls m "" p
    rcases hmp : m.asDry.mountPath "" p with ⟨e | mnt, tr1⟩
    · rw [hmp] at hsub
      simp only [Mounter.mountManualLoop, hmp] at hc
      exact hsub c hc
    · rw [hmp] at hsub
      rcases hrec : m.asDry.mountManualLoop ps
        { res with output.mounts := res.output.mounts ++ [mnt] } with ⟨r2, tr2⟩
      simp only [Mounter.mountManualLoop, hmp, hrec, List.mem_append] at hc
      rcases hc with hc | hc
      · exact hsub c hc
      · have := ih { res with output.mounts := res.output.mounts ++ [mnt] } c
        rw [hrec] at this
        exact this hc

/-- Dry `mountPaths` (manual) only ever stats. -/
theorem mountManualPaths_dry_calls (m : Mounter) (paths : List String) :
    ∀ res, ∀ c ∈ (m.asDry.mountManualPaths paths res).2, isMutation c = false := by
  intro res c hc
  simp only [Mounter.mountManualPaths] at hc
  exact mountManualLoop_dry_calls m paths
    { res with input.paths := res.input.paths ++ paths } c hc


/-- A whole dry `Mount` never calls `Mount`, `RemoveAll` or `WriteFile`. -/
theorem mount_dry_calls (m : Mounter) (menv : ModeExec) (req : MountRequest) :
    ∀ c ∈ (m.asDry.mount menv req).2, isMutation c = false := by
  intro c hc
  cases hen : req.enabledModes m.modes menv with
  | error e => simp [Mounter.mount, Mounter.asDry, hen] at hc
  | ok modes =>
    have h1 := mountModes_dry_calls m menv modes
      { output := { destructiveMode := m.asDry.destructiveMode } }
    rcases hmm : m.asDry.mountModes menv modes
      { output := { destructiveMode := m.asDry.destructiveMode } } with ⟨e1 | res1, tr1⟩
    · rw [hmm] at h1
      simp only [Mounter.mount, asDry_modes, hen, hmm] at hc
      exact h1 c hc
    · rw [hmm] at h1
      have h2 := mountManualPaths_dry_calls m req.manualPaths res1
      rcases hman : m.asDry.mountManualPaths req.manualPaths res1 with ⟨e2 | res2, tr2⟩
      · rw [hman] at h2
        simp only [Mounter.mount, asDry_modes, hen, hmm, hman, List.mem_append] at hc
        rcases hc with hc | hc
        · exact h1 c hc
        · exact h2 c hc
      · rw [hman] at h2
        have h3 := writeMetadata_dry m res2
        cases hdu : m.asDry.exec.diskUsage with
        | error e =>
          simp only [Mounter.mount, asDry_modes, hen, hmm, hman, h3, hdu,
            List.mem_append, List.mem_singleton] at hc
          rcases hc with ((hc | hc) | hc) | hc
          · exact h1 c hc
          · exact h2 c hc
          · simp at hc
          · simp [hc, isMutation]
        | ok usage =>
          simp only [Mounter.mount, asDry_modes, hen, hmm, hman, h3, hdu,
            List.mem_append, List.mem_singleton] at hc
          rcases hc with ((hc | hc) | hc) | hc
          · exact h1 c hc
          · exact h2 c hc
          · simp at hc
          · simp [hc, isMutation]

/-- C1: dry-run parity.  (i) A non-destructive `Mount` never calls the
executor's `Mount`, `RemoveAll` or `WriteFile`, on any input.  (ii) Whenever a
destructive `Mount` succeeds, the non-destructive run on the same inputs
succeeds with the identical reported `Mounts` list, `RemovedPaths` list and
aggregated `AddEnvs` mapping — while again performing none of those calls. -/
theorem c1_dry_run_parity :
    (∀ (m : Mounter) (menv : ModeExec) (req : MountRequest),
      m.destructiveMode = false →
      ∀ c ∈ (m.mount menv req).2, isMutation c = false) ∧
    (∀ (m : Mounter) (menv : ModeExec) (req : MountRequest) (res : MountResponse)
      (tr : List ExecCall),
      m.destructiveMode = true →
      m.mount menv req = (.ok res, tr) →
      ∃ res' tr', m.asDry.mount menv req = (.ok res', tr') ∧
        res'.output.mounts = res.output.mounts ∧
        res'.output.removedPaths = res.output.removedPaths ∧
        res'.output.addEnvs = res.output.addEnvs ∧
        ∀ c ∈ tr', isMutation c = false) := by
  constructor
  · intro m menv req hm c hc
    rw [← asDry_self m hm] at hc
    exact mount_dry_calls m menv req c hc
  · intro m menv req res tr _ h
    obtain ⟨tr', hdry⟩ := mount_dry m menv req res tr h
    refine ⟨dryOf res, tr', hdry, rfl, rfl, rfl, ?_⟩
    intro c hc
    have := mount_dry_calls m menv req c
    rw [hdry] at this
    exact this hc

/-- Witness for C1: a concrete successful destructive run (one manual path,
everything healthy) and its dry twin agree on all three reported lists, and
the dry trace is mutation-free. -/
theorem c1_dry_run_parity_witness :
    ∃ res' tr',
      mounterStatOk.asDry.mount noBinaryEnv { manualPaths := ["x"] } = (.ok res', tr') ∧
      res'.output.mounts = [MountResult.mk "" "/r/x" "x" true] ∧
      res'.output.removedPaths = ([] : List String) ∧
      res'.output.addEnvs = ([] : List (String × String)) ∧
      ∀ c ∈ tr', isMutation c = false :=
  c1_dry_run_parity.2 mounterStatOk noBinaryEnv { manualPaths := ["x"] }
    { input := { modes := [], paths := ["x"] },
      output := { destructiveMode := true, addEnvs := [], diskUsage := none,
                  mounts := [MountResult.mk "" "/r/x" "x" true], removedPaths := [] } }
    [.stat "/r/x", .mount "/r/x" "x", .mkdirAll "/r/.ns",
     .writeFile "/r/.ns/cache-metadata.json", .diskUsage "/r"]
    rfl rfl
